import Mathlib

/-!
Verification of the git-pr stack-landing orchestrator against its
natural-language specification.

The Go sources (`land.go`, `types.go`, `git.go`) are shallowly embedded:
pure functions become Lean functions on `String` / `List Char` / `Nat`;
the effectful landing loops become trace-producing functions over an
explicit environment record that supplies the outcome of every external
call (GitHub CLI invocations, git subprocesses); loops with `time.Sleep`
become fuel-indexed recursions where one fuel step is one iteration.
-/

set_option maxRecDepth 4000

/-! ## CI check classification (`land.go`: `updatePRStatusBatch`, `updatePRStatus`)

`checkStatus` mirrors the Go struct of the same name.  `RawCheckNode` is one
node of the GraphQL `statusCheckRollup.contexts` response as unmarshalled by
`updatePRStatusBatch` (both shapes, CheckRun and StatusContext, folded into
one record exactly as the Go anonymous struct does). -/

structure checkStatus where
  Name : String
  State : String
  Bucket : String
  Workflow : String
  Description : String
deriving DecidableEq

structure RawCheckNode where
  typeName : String
  name : String
  context : String
  status : String
  state : String
  conclusion : String
deriving DecidableEq

/-- Bucket of a CheckRun node, from the `switch check.Conclusion` in
`updatePRStatusBatch` (land.go lines 647-662). -/
def bucketCheckRun (conclusion status : String) : String :=
  if conclusion = "SUCCESS" then "pass"
  else if conclusion = "FAILURE" ∨ conclusion = "CANCELLED" ∨
      conclusion = "TIMED_OUT" ∨ conclusion = "ACTION_REQUIRED" then "fail"
  else if status = "COMPLETED" then "pass"
  else "pending"

/-- Bucket of a legacy StatusContext node, from the `switch check.State` in
`updatePRStatusBatch` (land.go lines 665-675). -/
def bucketStatusContext (state : String) : String :=
  if state = "SUCCESS" then "pass"
  else if state = "FAILURE" ∨ state = "ERROR" then "fail"
  else "pending"

/-- One pass of the batch classification loop (land.go lines 640-679): each
node is converted to a `checkStatus` (nodes of any other typename are appended
as the zero value, exactly as in Go) and the pass/fail/pending counters are
incremented alongside. Returns (checks, passing, failing, pending). -/
def processChecksBatch : List RawCheckNode → List checkStatus × Nat × Nat × Nat
  | [] => ([], 0, 0, 0)
  | n :: rest =>
    let cs : checkStatus :=
      if n.typeName = "CheckRun" then
        { Name := n.name, State := "", Bucket := bucketCheckRun n.conclusion n.status,
          Workflow := "", Description := "" }
      else if n.typeName = "StatusContext" then
        { Name := n.context, State := "", Bucket := bucketStatusContext n.state,
          Workflow := "", Description := "" }
      else
        { Name := "", State := "", Bucket := "", Workflow := "", Description := "" }
    let bump : Nat × Nat × Nat :=
      if n.typeName = "CheckRun" ∨ n.typeName = "StatusContext" then
        if cs.Bucket = "pass" then (1, 0, 0)
        else if cs.Bucket = "fail" then (0, 1, 0)
        else (0, 0, 1)
      else (0, 0, 0)
    let (l, p, f, pd) := processChecksBatch rest
    (cs :: l, p + bump.1, f + bump.2.1, pd + bump.2.2)

/-- Aggregate `ChecksStatus` computed by `updatePRStatusBatch`
(land.go lines 682-690). -/
def checksStatusBatch (nodes : List RawCheckNode) : String :=
  let r := processChecksBatch nodes
  let failing := r.2.2.1
  let pending := r.2.2.2
  let passing := r.2.1
  if failing > 0 then "FAILING"
  else if pending > 0 then "PENDING"
  else if passing > 0 then "PASSING"
  else "NONE"

/-- One entry of the `statusCheckRollup` array parsed by the sequential
fallback `updatePRStatus` (land.go lines 710-714): only the `name`, `status`
and `conclusion` JSON fields are read, so a StatusContext node (whose fields
are `context`/`state`) unmarshals with all three fields empty. -/
structure SeqCheckNode where
  name : String
  status : String
  conclusion : String
deriving DecidableEq

/-- Field projection performed by the sequential path's JSON decoding: the
`context` and `state` fields of a raw node are dropped. -/
def toSeqNode (n : RawCheckNode) : SeqCheckNode :=
  { name := n.name, status := n.status, conclusion := n.conclusion }

/-- Per-check classification of the sequential path, from the
`switch check.Conclusion` in `updatePRStatus` (land.go lines 734-743). -/
def bucketSeq (conclusion : String) : String :=
  if conclusion = "SUCCESS" ∨ conclusion = "NEUTRAL" ∨ conclusion = "SKIPPED" then "pass"
  else if conclusion = "FAILURE" ∨ conclusion = "CANCELLED" ∨
      conclusion = "TIMED_OUT" ∨ conclusion = "ACTION_REQUIRED" then "fail"
  else "pending"

/-- Counter loop of `updatePRStatus` (land.go lines 730-743). -/
def processChecksSeq : List SeqCheckNode → Nat × Nat × Nat
  | [] => (0, 0, 0)
  | n :: rest =>
    let (p, f, pd) := processChecksSeq rest
    if bucketSeq n.conclusion = "pass" then (p + 1, f, pd)
    else if bucketSeq n.conclusion = "fail" then (p, f + 1, pd)
    else (p, f, pd + 1)

/-- Aggregate `ChecksStatus` computed by `updatePRStatus`
(land.go lines 727-752): an empty rollup is `NONE`; otherwise failing wins,
then pending, else `PASSING`. -/
def checksStatusSeq (nodes : List SeqCheckNode) : String :=
  if nodes = [] then "NONE"
  else
    let r := processChecksSeq nodes
    if r.2.1 > 0 then "FAILING"
    else if r.2.2 > 0 then "PENDING"
    else "PASSING"

/-! ### Helper lemmas for the check classification -/

theorem bucketCheckRun_cases (c s : String) :
    bucketCheckRun c s = "pass" ∨ bucketCheckRun c s = "fail" ∨
      bucketCheckRun c s = "pending" := by
  unfold bucketCheckRun; split_ifs <;> simp

theorem bucketStatusContext_cases (s : String) :
    bucketStatusContext s = "pass" ∨ bucketStatusContext s = "fail" ∨
      bucketStatusContext s = "pending" := by
  unfold bucketStatusContext; split_ifs <;> simp

/-- The running counters of the batch loop agree with counting buckets in the
produced `checkStatus` list. -/
theorem processChecksBatch_counts (nodes : List RawCheckNode) :
    (processChecksBatch nodes).2.1 =
      ((processChecksBatch nodes).1.filter (fun c => c.Bucket = "pass")).length ∧
    (processChecksBatch nodes).2.2.1 =
      ((processChecksBatch nodes).1.filter (fun c => c.Bucket = "fail")).length ∧
    (processChecksBatch nodes).2.2.2 =
      ((processChecksBatch nodes).1.filter (fun c => c.Bucket = "pending")).length := by
  induction nodes with
  | nil => simp [processChecksBatch]
  | cons n rest ih =>
    obtain ⟨ih1, ih2, ih3⟩ := ih
    by_cases hcr : n.typeName = "CheckRun"
    · rcases bucketCheckRun_cases n.conclusion n.status with hb | hb | hb <;>
        simp [processChecksBatch, hcr, hb, List.filter, ih1, ih2, ih3, Nat.add_comm]
    · by_cases hsc : n.typeName = "StatusContext"
      · rcases bucketStatusContext_cases n.state with hb | hb | hb <;>
          simp [processChecksBatch, hcr, hsc, hb, List.filter, ih1, ih2, ih3, Nat.add_comm]
      · simp [processChecksBatch, hcr, hsc, List.filter, ih1, ih2, ih3]

/-- C2: each check run is bucketed pass on conclusion SUCCESS or on status
COMPLETED with no failure conclusion, fail on conclusion in
{FAILURE, CANCELLED, TIMED_OUT, ACTION_REQUIRED}, otherwise pending; each
status context is bucketed pass on state SUCCESS, fail on state in
{FAILURE, ERROR}, otherwise pending; the aggregate `ChecksStatus` is FAILING
if any check is fail, else PENDING if any is pending, else PASSING if at
least one is pass, else NONE; and the four example lists from the spec
([fail,pass,pending] -> FAILING, [pass,pending] -> PENDING,
[pass,pass] -> PASSING, [] -> NONE) aggregate as stated. -/
theorem C2_check_bucketing_and_aggregate :
    (∀ c s : String,
      (bucketCheckRun c s = "pass" ↔
        (c = "SUCCESS" ∨
          (¬(c = "FAILURE" ∨ c = "CANCELLED" ∨ c = "TIMED_OUT" ∨ c = "ACTION_REQUIRED") ∧
            s = "COMPLETED"))) ∧
      (bucketCheckRun c s = "fail" ↔
        (c = "FAILURE" ∨ c = "CANCELLED" ∨ c = "TIMED_OUT" ∨ c = "ACTION_REQUIRED")) ∧
      (bucketCheckRun c s = "pending" ↔
        (c ≠ "SUCCESS" ∧
          ¬(c = "FAILURE" ∨ c = "CANCELLED" ∨ c = "TIMED_OUT" ∨ c = "ACTION_REQUIRED") ∧
          s ≠ "COMPLETED"))) ∧
    (∀ st : String,
      (bucketStatusContext st = "pass" ↔ st = "SUCCESS") ∧
      (bucketStatusContext st = "fail" ↔ (st = "FAILURE" ∨ st = "ERROR")) ∧
      (bucketStatusContext st = "pending" ↔
        (st ≠ "SUCCESS" ∧ ¬(st = "FAILURE" ∨ st = "ERROR")))) ∧
    (∀ nodes : List RawCheckNode,
      (checksStatusBatch nodes = "FAILING" ↔
        ∃ c ∈ (processChecksBatch nodes).1, c.Bucket = "fail") ∧
      (checksStatusBatch nodes = "PENDING" ↔
        ((¬∃ c ∈ (processChecksBatch nodes).1, c.Bucket = "fail") ∧
          ∃ c ∈ (processChecksBatch nodes).1, c.Bucket = "pending")) ∧
      (checksStatusBatch nodes = "PASSING" ↔
        ((¬∃ c ∈ (processChecksBatch nodes).1, c.Bucket = "fail") ∧
          (¬∃ c ∈ (processChecksBatch nodes).1, c.Bucket = "pending") ∧
          ∃ c ∈ (processChecksBatch nodes).1, c.Bucket = "pass")) ∧
      (checksStatusBatch nodes = "NONE" ↔
        ((¬∃ c ∈ (processChecksBatch nodes).1, c.Bucket = "fail") ∧
          (¬∃ c ∈ (processChecksBatch nodes).1, c.Bucket = "pending") ∧
          ¬∃ c ∈ (processChecksBatch nodes).1, c.Bucket = "pass"))) ∧
    (checksStatusBatch
        [⟨"CheckRun", "ci", "", "", "", "FAILURE"⟩,
         ⟨"CheckRun", "build", "", "", "", "SUCCESS"⟩,
         ⟨"CheckRun", "lint", "", "IN_PROGRESS", "", ""⟩] = "FAILING" ∧
      checksStatusBatch
        [⟨"CheckRun", "build", "", "", "", "SUCCESS"⟩,
         ⟨"CheckRun", "lint", "", "IN_PROGRESS", "", ""⟩] = "PENDING" ∧
      checksStatusBatch
        [⟨"CheckRun", "build", "", "", "", "SUCCESS"⟩,
         ⟨"CheckRun", "test", "", "", "", "SUCCESS"⟩] = "PASSING" ∧
      checksStatusBatch ([] : List RawCheckNode) = "NONE") := by
  refine ⟨?_, ?_, ?_, by decide, by decide, by decide, by decide⟩
  · intro c s
    refine ⟨?_, ?_, ?_⟩ <;> (unfold bucketCheckRun; split_ifs <;> simp_all)
  · intro st
    refine ⟨?_, ?_, ?_⟩ <;> (unfold bucketStatusContext; split_ifs <;> simp_all)
  · intro nodes
    obtain ⟨h1, h2, h3⟩ := processChecksBatch_counts nodes
    have hex : ∀ b : String,
        (0 < ((processChecksBatch nodes).1.filter (fun c => c.Bucket = b)).length ↔
          ∃ c ∈ (processChecksBatch nodes).1, c.Bucket = b) := by
      intro b
      rw [List.length_pos]
      constructor
      · intro h
        rcases List.exists_mem_of_ne_nil _ h with ⟨c, hc⟩
        exact ⟨c, (List.mem_filter.1 hc).1, by simpa using (List.mem_filter.1 hc).2⟩
      · rintro ⟨c, hc, hb⟩ hnil
        have hm : c ∈ (processChecksBatch nodes).1.filter (fun c => c.Bucket = b) :=
          List.mem_filter.2 ⟨hc, by simpa using hb⟩
        simp [hnil] at hm
    have hfail := hex "fail"
    have hpend := hex "pending"
    have hpass := hex "pass"
    simp only [checksStatusBatch]
    rw [h1, h2, h3]
    split_ifs with hf hp hpa
    · exact ⟨iff_of_true rfl (hfail.1 hf),
        iff_of_false (by decide) (fun h => h.1 (hfail.1 hf)),
        iff_of_false (by decide) (fun h => h.1 (hfail.1 hf)),
        iff_of_false (by decide) (fun h => h.1 (hfail.1 hf))⟩
    · exact ⟨iff_of_false (by decide) (fun h => hf (hfail.2 h)),
        iff_of_true rfl ⟨fun h => hf (hfail.2 h), hpend.1 hp⟩,
        iff_of_false (by decide) (fun h => h.2.1 (hpend.1 hp)),
        iff_of_false (by decide) (fun h => h.2.1 (hpend.1 hp))⟩
    · exact ⟨iff_of_false (by decide) (fun h => hf (hfail.2 h)),
        iff_of_false (by decide) (fun h => hp (hpend.2 h.2)),
        iff_of_true rfl ⟨fun h => hf (hfail.2 h), fun h => hp (hpend.2 h), hpass.1 hpa⟩,
        iff_of_false (by decide) (fun h => h.2.2 (hpass.1 hpa))⟩
    · exact ⟨iff_of_false (by decide) (fun h => hf (hfail.2 h)),
        iff_of_false (by decide) (fun h => hp (hpend.2 h.2)),
        iff_of_false (by decide) (fun h => hpa (hpass.2 h.2.2)),
        iff_of_true rfl
          ⟨fun h => hf (hfail.2 h), fun h => hp (hpend.2 h), fun h => hpa (hpass.2 h)⟩⟩

/-- C5 counterexample: a legacy status context with state SUCCESS is bucketed
pass by the batched path but pending by the sequential per-PR path (which
decodes only the `name`/`status`/`conclusion` fields and therefore never sees
the `state` field), so the two paths do not reproduce the same classification
on identical raw checks. -/
theorem C5_counterexample :
    bucketStatusContext "SUCCESS" = "pass" ∧
    bucketSeq (toSeqNode ⟨"StatusContext", "", "ctx", "", "SUCCESS", ""⟩).conclusion
      = "pending" ∧
    checksStatusBatch [⟨"StatusContext", "", "ctx", "", "SUCCESS", ""⟩] = "PASSING" ∧
    checksStatusSeq
      ([(⟨"StatusContext", "", "ctx", "", "SUCCESS", ""⟩ : RawCheckNode)].map toSeqNode)
      = "PENDING" ∧
    checksStatusBatch [⟨"StatusContext", "", "ctx", "", "SUCCESS", ""⟩] ≠
      checksStatusSeq
        ([(⟨"StatusContext", "", "ctx", "", "SUCCESS", ""⟩ : RawCheckNode)].map toSeqNode) := by
  refine ⟨rfl, rfl, by decide, by decide, by decide⟩

/-- C5 amended: the two paths agree on every list of raw checks consisting
only of check runs whose conclusion is decisive (SUCCESS or one of the
failure conclusions FAILURE/CANCELLED/TIMED_OUT/ACTION_REQUIRED): the
per-check buckets coincide and the aggregate `ChecksStatus` coincides.  They
diverge on legacy status contexts (see the counterexample). -/
theorem C5_amended_batch_seq_agree (nodes : List RawCheckNode)
    (h : ∀ n ∈ nodes, n.typeName = "CheckRun" ∧
      (n.conclusion = "SUCCESS" ∨ n.conclusion = "FAILURE" ∨ n.conclusion = "CANCELLED" ∨
        n.conclusion = "TIMED_OUT" ∨ n.conclusion = "ACTION_REQUIRED")) :
    (processChecksBatch nodes).1.map (fun c => c.Bucket) =
      (nodes.map toSeqNode).map (fun n => bucketSeq n.conclusion) ∧
    checksStatusBatch nodes = checksStatusSeq (nodes.map toSeqNode) := by
  have hcounts : ∀ ns : List RawCheckNode,
      (∀ n ∈ ns, n.typeName = "CheckRun" ∧
        (n.conclusion = "SUCCESS" ∨ n.conclusion = "FAILURE" ∨ n.conclusion = "CANCELLED" ∨
          n.conclusion = "TIMED_OUT" ∨ n.conclusion = "ACTION_REQUIRED")) →
      (processChecksBatch ns).1.map (fun c => c.Bucket) =
        (ns.map toSeqNode).map (fun n => bucketSeq n.conclusion) ∧
      (processChecksBatch ns).2 = processChecksSeq (ns.map toSeqNode) ∧
      (processChecksBatch ns).2.1 + (processChecksBatch ns).2.2.1 +
        (processChecksBatch ns).2.2.2 = ns.length := by
    intro ns
    induction ns with
    | nil => intro _; exact ⟨rfl, rfl, rfl⟩
    | cons n rest ih =>
      intro hall
      obtain ⟨⟨hty, hc⟩, hrest⟩ := List.forall_mem_cons.1 hall
      obtain ⟨ihm, ihc, ihs⟩ := ih hrest
      have hbuck : bucketCheckRun n.conclusion n.status = bucketSeq n.conclusion := by
        rcases hc with hc | hc | hc | hc | hc <;>
          simp [bucketCheckRun, bucketSeq, hc]
      have ihc1 : (processChecksBatch rest).2.1 =
          (processChecksSeq (rest.map toSeqNode)).1 := congrArg Prod.fst ihc
      have ihc2 : (processChecksBatch rest).2.2.1 =
          (processChecksSeq (rest.map toSeqNode)).2.1 :=
        congrArg (fun x => x.2.1) ihc
      have ihc3 : (processChecksBatch rest).2.2.2 =
          (processChecksSeq (rest.map toSeqNode)).2.2 :=
        congrArg (fun x => x.2.2) ihc
      rcases hc with hc | hc | hc | hc | hc <;>
        refine ⟨?_, ?_, ?_⟩ <;>
        simp [processChecksBatch, processChecksSeq, toSeqNode, hty, hbuck, hc,
          bucketCheckRun, bucketSeq, ihm, ihc1, ihc2, ihc3, ihs] <;>
        omega
  obtain ⟨hm, hcnt, hsum⟩ := hcounts nodes h
  refine ⟨hm, ?_⟩
  by_cases hnil : nodes = []
  · subst hnil; rfl
  · have hne : ¬(nodes.map toSeqNode = []) := by
      simpa using hnil
    simp only [checksStatusBatch, checksStatusSeq, if_neg hne]
    rw [hcnt] at hsum ⊢
    have hlen : 0 < nodes.length := List.length_pos.2 hnil
    split_ifs <;> first | rfl | omega

/-- Witness for the amended C5 theorem at a concrete two-element check list. -/
theorem C5_amended_batch_seq_agree_witness :
    (∀ n ∈ [(⟨"CheckRun", "ci", "", "", "", "SUCCESS"⟩ : RawCheckNode),
        ⟨"CheckRun", "test", "", "", "", "FAILURE"⟩],
      n.typeName = "CheckRun" ∧
        (n.conclusion = "SUCCESS" ∨ n.conclusion = "FAILURE" ∨ n.conclusion = "CANCELLED" ∨
          n.conclusion = "TIMED_OUT" ∨ n.conclusion = "ACTION_REQUIRED")) ∧
    ((processChecksBatch
        [⟨"CheckRun", "ci", "", "", "", "SUCCESS"⟩,
         ⟨"CheckRun", "test", "", "", "", "FAILURE"⟩]).1.map (fun c => c.Bucket) =
      ([(⟨"CheckRun", "ci", "", "", "", "SUCCESS"⟩ : RawCheckNode),
        ⟨"CheckRun", "test", "", "", "", "FAILURE"⟩].map toSeqNode).map
          (fun n => bucketSeq n.conclusion) ∧
     checksStatusBatch
        [⟨"CheckRun", "ci", "", "", "", "SUCCESS"⟩,
         ⟨"CheckRun", "test", "", "", "", "FAILURE"⟩] =
      checksStatusSeq
        ([(⟨"CheckRun", "ci", "", "", "", "SUCCESS"⟩ : RawCheckNode),
          ⟨"CheckRun", "test", "", "", "", "FAILURE"⟩].map toSeqNode)) :=
  ⟨by decide, C5_amended_batch_seq_agree _ (by decide)⟩

/-! ## Waiting for required checks (`land.go`: `waitForChecks`)

`landConfig` mirrors the Go struct; durations are modelled as `Nat`
(nanosecond counts are irrelevant, only comparisons and multiples matter).
The polling loop is a fuel-indexed recursion: one unit of fuel is one loop
iteration, and at the start of iteration `k` the elapsed time is
`k * pollInterval` (the loop sleeps `pollInterval` at the end of every
iteration).  `PollOutcome` is the result of one
`gh pr checks --required --json ...` invocation: the gh call failing is how
"no required checks are configured" manifests (the code treats it as
success); an unparsable payload is a fatal parse error; otherwise a list of
`checkStatus` values. -/

structure landConfig where
  timeout : Nat
  pollInterval : Nat
  deleteBranch : Bool
  requireChecks : Bool
  autoMode : Bool
  dryRun : Bool
  interactive : Bool
  autoRetry : Bool
  pauseOnFail : Bool
  stopAtLast : Bool

inductive PollOutcome where
  | ghError
  | parseError
  | checks (cs : List checkStatus)

inductive WaitError where
  | timeout (budget : Nat)
  | parseFailed
  | checksFailed (names : List String)
deriving DecidableEq

/-- Names of required checks in the fail/cancel buckets
(land.go lines 1075-1086). -/
def failedCheckNames (cs : List checkStatus) : List String :=
  (cs.filter (fun c => c.Bucket = "fail" ∨ c.Bucket = "cancel")).map (fun c => c.Name)

/-- Names of required checks still pending (land.go lines 1082-1084). -/
def pendingCheckNames (cs : List checkStatus) : List String :=
  (cs.filter (fun c => c.Bucket = "pending")).map (fun c => c.Name)

/-- The `allPassed` flag of the polling loop: it is cleared exactly by a
check in the fail, cancel or pending buckets (buckets outside the switch
leave it set, land.go lines 1071-1086). -/
def allRequiredPassed (cs : List checkStatus) : Bool :=
  cs.all (fun c => ¬(c.Bucket = "fail" ∨ c.Bucket = "cancel" ∨ c.Bucket = "pending"))

/-- The polling loop of `waitForChecks` (land.go lines 1050-1103).  `k` is
the iteration counter (elapsed time `k * pollInterval`), `env k` the result
of the k-th status query.  Returns `none` when fuel runs out (the real loop
is unbounded). -/
def waitForChecksF (cfg : landConfig) (env : Nat → PollOutcome) :
    Nat → Nat → Option (Except WaitError Unit)
  | 0, _ => none
  | fuel + 1, k =>
    if k * cfg.pollInterval > cfg.timeout then
      some (.error (.timeout cfg.timeout))
    else
      match env k with
      | .ghError => some (.ok ())
      | .parseError => some (.error .parseFailed)
      | .checks cs =>
        if failedCheckNames cs ≠ [] then
          some (.error (.checksFailed (failedCheckNames cs)))
        else if allRequiredPassed cs then
          some (.ok ())
        else
          waitForChecksF cfg env fuel (k + 1)

/-- C6: `waitForChecks` returns success immediately when no required checks
are configured (the gh query fails, which the code treats as "no required
checks"), or when every required check is in a pass/skipping bucket; it
returns an error naming the failed checks as soon as any required check is
in a fail/cancel bucket; it returns a timeout error once the elapsed time
exceeds the configured timeout; and otherwise it keeps polling, with the
next iteration one poll interval later. -/
theorem C6_waitForChecks (cfg : landConfig) (env : Nat → PollOutcome)
    (fuel k : Nat) (hbudget : k * cfg.pollInterval ≤ cfg.timeout) :
    (env k = .ghError → waitForChecksF cfg env (fuel + 1) k = some (.ok ())) ∧
    (∀ cs, env k = .checks cs → failedCheckNames cs ≠ [] →
      waitForChecksF cfg env (fuel + 1) k =
        some (.error (.checksFailed (failedCheckNames cs)))) ∧
    (∀ j, j * cfg.pollInterval > cfg.timeout →
      waitForChecksF cfg env (fuel + 1) j = some (.error (.timeout cfg.timeout))) ∧
    (∀ cs, env k = .checks cs → failedCheckNames cs = [] → ¬allRequiredPassed cs →
      waitForChecksF cfg env (fuel + 1) k = waitForChecksF cfg env fuel (k + 1)) ∧
    (∀ cs, env k = .checks cs → allRequiredPassed cs →
      waitForChecksF cfg env (fuel + 1) k = some (.ok ())) := by
  have hnb : ¬(k * cfg.pollInterval > cfg.timeout) := by omega
  refine ⟨?_, ?_, ?_, ?_, ?_⟩
  · intro hgh
    simp [waitForChecksF, hnb, hgh]
  · intro cs hcs hfail
    simp [waitForChecksF, hnb, hcs, hfail]
  · intro j hj
    simp [waitForChecksF, hj]
  · intro cs hcs hfail hnp
    simp [waitForChecksF, hnb, hcs, hfail, hnp]
  · intro cs hcs hap
    have hfail : failedCheckNames cs = [] := by
      unfold failedCheckNames
      rw [List.map_eq_nil_iff, List.filter_eq_nil_iff]
      intro c hc
      have hcb := (List.all_eq_true.1 hap) c hc
      rw [decide_eq_true_eq, not_or, not_or] at hcb
      simp only [decide_eq_true_eq, not_or]
      exact ⟨hcb.1, hcb.2.1⟩
    simp [waitForChecksF, hnb, hcs, hfail, hap]

/-- Witness for C6: with a 10-unit timeout and the gh query reporting that no
required checks are configured, the wait returns success at once. -/
theorem C6_waitForChecks_witness :
    0 * (1 : Nat) ≤ 10 ∧
    waitForChecksF ⟨10, 1, false, true, false, false, false, false, false, false⟩
      (fun _ => .ghError) 3 0 = some (.ok ()) :=
  ⟨by decide,
    (C6_waitForChecks ⟨10, 1, false, true, false, false, false, false, false, false⟩
      (fun _ => .ghError) 2 0 (by decide)).1 rfl⟩

/-! ## The landing state machine (`land.go`: `landStack`, `landStackFromDashboard`)

The per-PR landing protocol is embedded as a trace-producing function.
`Event` records every external interaction (read-only queries and
mutations); `LandError` is the structured content of the `fmt.Errorf`
messages the Go code returns (each constructor carries exactly the data the
corresponding format string interpolates).  The environment records supply
the outcome of every external call; `time.Sleep` shows up as a `sleep`
event. -/

structure prInfo where
  Number : Nat
  Title : String
  URL : String
  HeadSHA : String
  HeadBranch : String
  BaseBranch : String
  Mergeable : String
  MergeStatus : String
  ChecksStatus : String
  State : String
deriving DecidableEq

inductive Event where
  | checkMergeability (pr : Nat)
  | sleep (seconds : Nat)
  | dryRunWouldMerge (pr : Nat)
  | waitChecks (pr : Nat)
  | queryHeadSHA (pr : Nat)
  | mergeRequest (pr : Nat) (headSHA : String)
  | waitMerge (pr : Nat)
  | updateBase (pr : Nat) (base : String)
  | queryConflicts (pr : Nat)
  | rebaseRemaining
  | deleteBranch (branch : String)
  | gitSync
  | localRebase
  | verifySync (pr : Nat)
  | skipMerged (pr : Nat)
  | draw
  | fetchStatus
  | unknownNotice
  | handoff
deriving DecidableEq

inductive LandError where
  | mergeabilityQueryFailed (pr : Nat) (msg : String)
  | conflicting (pr : Nat) (reason url : String)
  | checksFailed (pr : Nat) (msg : String)
  | mergeFailed (pr : Nat)
  | waitMergeFailed (pr : Nat) (msg : String)
  | dependentClosed (pr : Nat)
  | conflictsAfterBaseUpdate
  | stillConflictingAfterRebase (pr : Nat)
  | verifyFailed (pr : Nat) (msg : String)
  | localRebaseFailed
  | cancelled
deriving DecidableEq

/-- Outcome of one `gh pr merge` invocation as observed by the caller: the
Go code inspects the error and whether the captured output contains
`enablePullRequestAutoMerge` (land.go lines 216-225). -/
inductive MergeOutcome where
  | success
  | failAutoMergeHint
  | failOther
deriving DecidableEq

/-- Outcome of `updatePRBase`: the Go code distinguishes errors whose message
contains "closed" (fatal) from any other error (warning only)
(land.go lines 249-261). -/
inductive BaseUpdateOutcome where
  | ok
  | closedError
  | otherError
deriving DecidableEq

/-- Environment of one non-interactive per-PR iteration: outcome of every
external call the loop body can make.  `mergeability i` is the result of the
i-th `checkPRMergeability` call for this PR (0 = the initial check,
1..3 = the retries for UNKNOWN). -/
structure PREnv where
  mergeability : Nat → Except String (String × String)
  checksOutcome : Except String Unit
  currentHeadSHA : String
  hasAutoCommits : Bool
  merge1 : MergeOutcome
  merge2 : MergeOutcome
  waitMergeOutcome : Except String Unit
  updateBaseOutcome : BaseUpdateOutcome
  deleteBranchOutcome : Except String Unit

/-- The UNKNOWN retry loop of `landStack` (land.go lines 167-174):
`for retry := 0; retry < 3 && mergeStatus == "UNKNOWN"; retry++` with a
2-second sleep before each re-query.  `rem` is the remaining retry budget
(3 at entry), `idx` the index of the next `checkPRMergeability` call. -/
def retryMergeability (env : PREnv) (pr : Nat) :
    Nat → Nat → String → String → Except String (String × String) × List Event
  | 0, _, status, reason => (.ok (status, reason), [])
  | rem + 1, idx, status, reason =>
    if status = "UNKNOWN" then
      match env.mergeability idx with
      | .error e => (.error e, [.sleep 2, .checkMergeability pr])
      | .ok (s, r) =>
        let next := retryMergeability env pr rem (idx + 1) s r
        (next.1, .sleep 2 :: .checkMergeability pr :: next.2)
    else
      (.ok (status, reason), [])

/-- The mergeability phase of the non-interactive loop body
(land.go lines 154-187): initial `checkPRMergeability`, the switch on its
status (CONFLICTING aborts with the PR's URL; UNKNOWN enters the bounded
retry loop and aborts if the final status is CONFLICTING or a re-query
fails; anything else proceeds). -/
def mergePhase (env : PREnv) (pr : prInfo) :
    Except LandError (String × String) × List Event :=
  match env.mergeability 0 with
  | .error e => (.error (.mergeabilityQueryFailed pr.Number e), [.checkMergeability pr.Number])
  | .ok (st, rs) =>
    if st = "CONFLICTING" then
      (.error (.conflicting pr.Number rs pr.URL), [.checkMergeability pr.Number])
    else if st = "UNKNOWN" then
      match retryMergeability env pr.Number 3 1 st rs with
      | (.error e, evs) =>
        (.error (.mergeabilityQueryFailed pr.Number e), .checkMergeability pr.Number :: evs)
      | (.ok (st2, rs2), evs) =>
        if st2 = "CONFLICTING" then
          (.error (.conflicting pr.Number rs2 pr.URL), .checkMergeability pr.Number :: evs)
        else
          (.ok (st2, rs2), .checkMergeability pr.Number :: evs)
    else
      (.ok (st, rs), [.checkMergeability pr.Number])

/-- The merge step with the deferred-auto-merge fallback
(land.go lines 215-243): one `gh pr merge`; if it fails and the output names
`enablePullRequestAutoMerge`, one retry without `--auto` (after which
`cfg.autoMode` is restored to true); then, when auto mode is (back) on,
block on `waitForMerge`.  Returns the worked state of `autoMode` used by the
wait step together with the merge result. -/
def mergeStep (cfg : landConfig) (m1 m2 : MergeOutcome) (pr : Nat) (sha : String) :
    Except LandError Unit × Bool × List Event :=
  match m1 with
  | .success => (.ok (), cfg.autoMode, [.mergeRequest pr sha])
  | .failAutoMergeHint =>
    match m2 with
    | .success => (.ok (), true, [.mergeRequest pr sha, .mergeRequest pr sha])
    | _ => (.error (.mergeFailed pr), true, [.mergeRequest pr sha, .mergeRequest pr sha])
  | .failOther => (.error (.mergeFailed pr), cfg.autoMode, [.mergeRequest pr sha])

/-- The block-and-poll step after a queued auto merge (land.go lines
232-243): only runs when auto mode is in effect for this merge. -/
def waitMergeStep (autoAfter : Bool) (outcome : Except String Unit) (pr : Nat) :
    Except LandError Unit × List Event :=
  if autoAfter then
    match outcome with
    | .error msg => (.error (.waitMergeFailed pr msg), [.waitMerge pr])
    | .ok _ => (.ok (), [.waitMerge pr])
  else
    (.ok (), [])

/-- The base-update step for the next PR in the plan (land.go lines
246-262): a "closed" error is fatal, any other error only warns, and on
success the loop sleeps 2 seconds to let the forge settle. -/
def updateBaseStep (env : PREnv) (pr : prInfo) (next : Option prInfo) :
    Except LandError Unit × List Event :=
  match next with
  | none => (.ok (), [])
  | some n =>
    match env.updateBaseOutcome with
    | .closedError => (.error (.dependentClosed n.Number),
        [.updateBase n.Number pr.BaseBranch])
    | .otherError => (.ok (), [.updateBase n.Number pr.BaseBranch])
    | .ok => (.ok (), [.updateBase n.Number pr.BaseBranch, .sleep 2])

/-- The merge-and-cleanup section of the non-interactive loop body
(land.go lines 211-283): squash-merge with the auto-merge fallback, wait
for a queued merge, repoint the next PR's base, delete the merged branch,
pull the refreshed trunk. -/
def landPRMergeSection (cfg : landConfig) (env : PREnv) (pr : prInfo)
    (next : Option prInfo) (sha : String) : Except LandError Unit × List Event :=
  match mergeStep cfg env.merge1 env.merge2 pr.Number sha with
  | (.error e, _, mevs) => (.error e, mevs)
  | (.ok _, autoAfter, mevs) =>
    match waitMergeStep autoAfter env.waitMergeOutcome pr.Number with
    | (.error e, wevs) => (.error e, mevs ++ wevs)
    | (.ok _, wevs) =>
      match updateBaseStep env pr next with
      | (.error e, bevs) => (.error e, mevs ++ wevs ++ bevs)
      | (.ok _, bevs) =>
        let devs : List Event :=
          if cfg.deleteBranch ∧ pr.HeadBranch ≠ "" then [.deleteBranch pr.HeadBranch]
          else []
        (.ok (), mevs ++ wevs ++ bevs ++ devs ++ [.gitSync])

/-- The head SHA passed to the merge request: the drift-detection step
(land.go lines 202-209) adopts the freshly queried head when CI appended
commits, otherwise the planned head. -/
def shaOf (env : PREnv) (pr : prInfo) : String :=
  if env.hasAutoCommits then env.currentHeadSHA else pr.HeadSHA

/-- One iteration of the non-interactive landing loop
(`landStack`, land.go lines 143-287) for the PR `pr`; `next` is the next
plan entry if one exists.  In dry-run mode the body prints the would-merge
description and moves on immediately (the `continue` at line 150), so no
check and no mutation happens. -/
def landPR (cfg : landConfig) (env : PREnv) (pr : prInfo) (next : Option prInfo) :
    Except LandError Unit × List Event :=
  if cfg.dryRun then
    (.ok (), [.dryRunWouldMerge pr.Number])
  else
    match mergePhase env pr with
    | (.error e, evs) => (.error e, evs)
    | (.ok _, evs0) =>
      let checksStep : Except LandError Unit × List Event :=
        if cfg.requireChecks then
          match env.checksOutcome with
          | .error msg => (.error (.checksFailed pr.Number msg), [.waitChecks pr.Number])
          | .ok _ => (.ok (), [.waitChecks pr.Number])
        else
          (.ok (), [])
      match checksStep with
      | (.error e, evs1) => (.error e, evs0 ++ evs1)
      | (.ok _, evs1) =>
        let evs2 := evs0 ++ evs1 ++ [.queryHeadSHA pr.Number]
        if cfg.dryRun then
          (.ok (), evs2 ++ [.dryRunWouldMerge pr.Number])
        else
          let sec := landPRMergeSection cfg env pr next (shaOf env pr)
          (sec.1, evs2 ++ sec.2)

/-- The non-interactive landing loop over the whole plan (land.go lines
143-288): strictly in stack order, stopping at the first error. -/
def landStackLoop (cfg : landConfig) (envs : Nat → PREnv) :
    List prInfo → Except LandError Unit × List Event
  | [] => (.ok (), [])
  | pr :: rest =>
    match landPR cfg (envs pr.Number) pr rest.head? with
    | (.error e, evs) => (.error e, evs)
    | (.ok _, evs) =>
      let r := landStackLoop cfg envs rest
      (r.1, evs ++ r.2)

/-- Trace shape of `m` UNKNOWN retries: each re-query is preceded by the
fixed 2-second delay. -/
def retryTraceShape (pr : Nat) : Nat → List Event
  | 0 => []
  | m + 1 => .sleep 2 :: .checkMergeability pr :: retryTraceShape pr m

/-! ### Lemmas about the UNKNOWN retry loop -/

theorem retryMergeability_stop (env : PREnv) (pr rem idx : Nat) (st rs : String)
    (h : st ≠ "UNKNOWN") :
    retryMergeability env pr rem idx st rs = (.ok (st, rs), []) := by
  cases rem <;> simp [retryMergeability, h]

theorem retryMergeability_shape (env : PREnv) (pr : Nat) :
    ∀ rem idx st rs, ∃ m ≤ rem,
      (retryMergeability env pr rem idx st rs).2 = retryTraceShape pr m := by
  intro rem
  induction rem with
  | zero => intro idx st rs; exact ⟨0, Nat.le_refl 0, rfl⟩
  | succ rem ih =>
    intro idx st rs
    by_cases hst : st = "UNKNOWN"
    · match henv : env.mergeability idx with
      | .error e =>
        refine ⟨1, by omega, ?_⟩
        simp [retryMergeability, hst, henv, retryTraceShape]
      | .ok (s, r) =>
        obtain ⟨m, hm, hsh⟩ := ih (idx + 1) s r
        refine ⟨m + 1, by omega, ?_⟩
        simp [retryMergeability, hst, henv, retryTraceShape, hsh]
    · exact ⟨0, by omega, by simp [retryMergeability, hst, retryTraceShape]⟩

theorem retryMergeability_error (env : PREnv) (pr : Nat) :
    ∀ rem idx st rs e,
      (retryMergeability env pr rem idx st rs).1 = .error e →
      ∃ j, idx ≤ j ∧ j < idx + rem ∧ env.mergeability j = .error e := by
  intro rem
  induction rem with
  | zero => intro idx st rs e h; simp [retryMergeability] at h
  | succ rem ih =>
    intro idx st rs e h
    by_cases hst : st = "UNKNOWN"
    · match henv : env.mergeability idx with
      | .error e2 =>
        simp [retryMergeability, hst, henv] at h
        exact ⟨idx, Nat.le_refl idx, by omega, by rw [henv, h]⟩
      | .ok (s, r) =>
        simp [retryMergeability, hst, henv] at h
        obtain ⟨j, hj1, hj2, hj3⟩ := ih (idx + 1) s r e h
        exact ⟨j, by omega, by omega, hj3⟩
    · simp [retryMergeability_stop env pr _ idx st rs hst] at h

theorem retryMergeability_ok (env : PREnv) (pr : Nat) :
    ∀ rem idx st rs s2 r2,
      (retryMergeability env pr rem idx st rs).1 = .ok (s2, r2) →
      (s2 = st ∧ r2 = rs) ∨
        ∃ j, idx ≤ j ∧ j < idx + rem ∧ env.mergeability j = .ok (s2, r2) := by
  intro rem
  induction rem with
  | zero =>
    intro idx st rs s2 r2 h
    simp [retryMergeability] at h
    exact .inl ⟨h.1.symm, h.2.symm⟩
  | succ rem ih =>
    intro idx st rs s2 r2 h
    by_cases hst : st = "UNKNOWN"
    · match henv : env.mergeability idx with
      | .error e2 => simp [retryMergeability, hst, henv] at h
      | .ok (s, r) =>
        simp [retryMergeability, hst, henv] at h
        rcases ih (idx + 1) s r s2 r2 h with ⟨hs, hr⟩ | ⟨j, hj1, hj2, hj3⟩
        · exact .inr ⟨idx, Nat.le_refl idx, by omega, by rw [henv, hs, hr]⟩
        · exact .inr ⟨j, by omega, by omega, hj3⟩
    · rw [retryMergeability_stop env pr _ idx st rs hst] at h
      simp at h
      exact .inl ⟨h.1.symm, h.2.symm⟩

theorem retryTraceShape_no_merge (pr n : Nat) (s : String) :
    ∀ m, Event.mergeRequest n s ∉ retryTraceShape pr m := by
  intro m
  induction m with
  | zero => simp [retryTraceShape]
  | succ m ih => simp [retryTraceShape, ih]

/-- Every branch of the mergeability phase emits the initial check followed
by at most 3 retries, each preceded by the fixed 2-second delay. -/
theorem mergePhase_shape (env : PREnv) (pr : prInfo) :
    ∃ m ≤ 3, (mergePhase env pr).2 =
      .checkMergeability pr.Number :: retryTraceShape pr.Number m := by
  match h0 : env.mergeability 0 with
  | .error e => exact ⟨0, by omega, by simp [mergePhase, h0, retryTraceShape]⟩
  | .ok (st, rs) =>
    by_cases hcf : st = "CONFLICTING"
    · exact ⟨0, by omega, by simp [mergePhase, h0, hcf, retryTraceShape]⟩
    · by_cases hu : st = "UNKNOWN"
      · subst hu
        obtain ⟨m, hm, hsh⟩ := retryMergeability_shape env pr.Number 3 1 "UNKNOWN" rs
        refine ⟨m, hm, ?_⟩
        rcases hres : retryMergeability env pr.Number 3 1 "UNKNOWN" rs with ⟨res, evs⟩
        rw [hres] at hsh
        cases res with
        | error e =>
          simp only [mergePhase, h0, hcf, hres]
          simpa using hsh
        | ok p =>
          rcases p with ⟨st2, rs2⟩
          by_cases hc2 : st2 = "CONFLICTING" <;>
            (simp only [mergePhase, h0, hcf, hres, hc2, if_true, if_false]; simpa using hsh)
      · exact ⟨0, by omega, by simp [mergePhase, h0, hcf, hu, retryTraceShape]⟩

/-- No merge request is ever part of the mergeability phase's trace. -/
theorem mergePhase_no_merge (env : PREnv) (pr : prInfo) (n : Nat) (s : String) :
    Event.mergeRequest n s ∉ (mergePhase env pr).2 := by
  obtain ⟨m, _, hsh⟩ := mergePhase_shape env pr
  rw [hsh]
  simp [retryTraceShape_no_merge]

/-- If the first `checkPRMergeability` call reports CONFLICTING, the phase
aborts with the PR's URL at once. -/
theorem mergePhase_conflicting_initial (env : PREnv) (pr : prInfo) (r : String)
    (h0 : env.mergeability 0 = .ok ("CONFLICTING", r)) :
    mergePhase env pr =
      (.error (.conflicting pr.Number r pr.URL), [.checkMergeability pr.Number]) := by
  simp [mergePhase, h0]

/-- If the initial status is UNKNOWN and the k-th retry (1 ≤ k ≤ 3) reports
CONFLICTING after only UNKNOWN results, the phase aborts with the PR's
URL. -/
theorem mergePhase_conflicting_retry (env : PREnv) (pr : prInfo) (k : Nat) (r : String)
    (hk1 : 1 ≤ k) (hk3 : k ≤ 3)
    (hu : ∀ j < k, ∃ rj, env.mergeability j = .ok ("UNKNOWN", rj))
    (hc : env.mergeability k = .ok ("CONFLICTING", r)) :
    (mergePhase env pr).1 = .error (.conflicting pr.Number r pr.URL) := by
  interval_cases k
  · obtain ⟨r0, h0⟩ := hu 0 (by omega)
    simp [mergePhase, retryMergeability, h0, hc]
  · obtain ⟨r0, h0⟩ := hu 0 (by omega)
    obtain ⟨r1, h1⟩ := hu 1 (by omega)
    simp [mergePhase, retryMergeability, h0, h1, hc]
  · obtain ⟨r0, h0⟩ := hu 0 (by omega)
    obtain ⟨r1, h1⟩ := hu 1 (by omega)
    obtain ⟨r2, h2⟩ := hu 2 (by omega)
    simp [mergePhase, retryMergeability, h0, h1, h2, hc]

/-- If the initial status is UNKNOWN and all three retries still report
UNKNOWN, the phase passes through with the last observed status. -/
theorem mergePhase_unknown_passthrough (env : PREnv) (pr : prInfo)
    (r0 r1 r2 r3 : String)
    (h0 : env.mergeability 0 = .ok ("UNKNOWN", r0))
    (h1 : env.mergeability 1 = .ok ("UNKNOWN", r1))
    (h2 : env.mergeability 2 = .ok ("UNKNOWN", r2))
    (h3 : env.mergeability 3 = .ok ("UNKNOWN", r3)) :
    (mergePhase env pr).1 = .ok ("UNKNOWN", r3) := by
  simp [mergePhase, retryMergeability, h0, h1, h2, h3]

/-- The mergeability phase aborts only when some executed call observed
CONFLICTING or the query itself failed. -/
theorem mergePhase_error_characterization (env : PREnv) (pr : prInfo) (e : LandError)
    (h : (mergePhase env pr).1 = .error e) :
    (∃ k ≤ 3, ∃ r, env.mergeability k = .ok ("CONFLICTING", r) ∧
      e = .conflicting pr.Number r pr.URL) ∨
    (∃ k ≤ 3, ∃ msg, env.mergeability k = .error msg ∧
      e = .mergeabilityQueryFailed pr.Number msg) := by
  match h0 : env.mergeability 0 with
  | .error msg =>
    simp [mergePhase, h0] at h
    exact .inr ⟨0, by omega, msg, h0, h.symm⟩
  | .ok (st, rs) =>
    by_cases hcf : st = "CONFLICTING"
    · simp [mergePhase, h0, hcf] at h
      subst hcf
      exact .inl ⟨0, by omega, rs, h0, h.symm⟩
    · by_cases hun : st = "UNKNOWN"
      · subst hun
        rcases hres : retryMergeability env pr.Number 3 1 "UNKNOWN" rs with ⟨res, evs⟩
        cases res with
        | error msg =>
          have hj := retryMergeability_error env pr.Number 3 1 "UNKNOWN" rs msg
            (by rw [hres])
          obtain ⟨j, hj1, hj2, hj3⟩ := hj
          simp [mergePhase, h0, hcf, hres] at h
          exact .inr ⟨j, by omega, msg, hj3, h.symm⟩
        | ok p =>
          rcases p with ⟨st2, rs2⟩
          by_cases hc2 : st2 = "CONFLICTING"
          · have hj := retryMergeability_ok env pr.Number 3 1 "UNKNOWN" rs st2 rs2
              (by rw [hres])
            rcases hj with ⟨hs, _⟩ | ⟨j, hj1, hj2, hj3⟩
            · rw [hc2] at hs; simp at hs
            · simp [mergePhase, h0, hcf, hres, hc2] at h
              subst hc2
              exact .inl ⟨j, by omega, rs2, hj3, h.symm⟩
          · simp [mergePhase, h0, hcf, hres, hc2] at h
      · simp [mergePhase, h0, hcf, hun] at h

/-! ### Lemmas about the per-PR landing body -/

theorem mergeStep_events (cfg : landConfig) (m1 m2 : MergeOutcome) (p : Nat) (sha : String) :
    (mergeStep cfg m1 m2 p sha).2.2 = [.mergeRequest p sha] ∨
    (mergeStep cfg m1 m2 p sha).2.2 = [.mergeRequest p sha, .mergeRequest p sha] := by
  rcases m1 <;> rcases m2 <;> simp [mergeStep]

theorem waitMergeStep_events (autoAfter : Bool) (outcome : Except String Unit) (p : Nat) :
    (waitMergeStep autoAfter outcome p).2 = [] ∨
    (waitMergeStep autoAfter outcome p).2 = [.waitMerge p] := by
  rcases autoAfter <;> rcases outcome <;> simp [waitMergeStep]

/-- In dry-run mode the body only prints the would-merge description. -/
theorem landPR_dryRun (cfg : landConfig) (env : PREnv) (pr : prInfo) (next : Option prInfo)
    (hdry : cfg.dryRun = true) :
    landPR cfg env pr next = (.ok (), [.dryRunWouldMerge pr.Number]) := by
  simp [landPR, hdry]

/-- A mergeability-phase error aborts the body with exactly the phase's
error and trace. -/
theorem landPR_phase_error (cfg : landConfig) (env : PREnv) (pr : prInfo)
    (next : Option prInfo) (e : LandError) (evs : List Event)
    (hdry : cfg.dryRun = false) (hmp : mergePhase env pr = (.error e, evs)) :
    landPR cfg env pr next = (.error e, evs) := by
  simp [landPR, hdry, hmp]

/-- When required checks are configured and the mergeability phase passes,
the body always reaches the checks-wait step. -/
theorem landPR_waitChecks_mem (cfg : landConfig) (env : PREnv) (pr : prInfo)
    (next : Option prInfo) (res : String × String) (evs0 : List Event)
    (hdry : cfg.dryRun = false) (hrc : cfg.requireChecks = true)
    (hmp : mergePhase env pr = (.ok res, evs0)) :
    Event.waitChecks pr.Number ∈ (landPR cfg env pr next).2 := by
  simp only [landPR, hdry, hmp, Bool.false_eq_true, if_false, hrc, if_true]
  rcases hco : env.checksOutcome with msg | u <;> simp only [hco] <;> simp_all

/-- Classification of the events the merge-and-cleanup section can emit. -/
def mergeSectionEvent (p : Nat) (sha : String) (e : Event) : Prop :=
  e = .mergeRequest p sha ∨ e = .waitMerge p ∨ (∃ m b, e = .updateBase m b) ∨
    e = .sleep 2 ∨ (∃ b, e = .deleteBranch b) ∨ e = .gitSync

/-- Every event of the base-update step is an `updateBase` for the next PR
or the settling sleep. -/
theorem updateBaseStep_events (env : PREnv) (pr : prInfo) (next : Option prInfo) :
    ∀ e ∈ (updateBaseStep env pr next).2,
      (∃ m b, e = Event.updateBase m b) ∨ e = Event.sleep 2 := by
  intro e he
  rcases next with _ | nx
  · simp [updateBaseStep] at he
  · rcases hub : env.updateBaseOutcome <;> simp [updateBaseStep, hub] at he
    · rcases he with he | he
      · exact .inl ⟨_, _, he⟩
      · exact .inr he
    · exact .inl ⟨_, _, he⟩
    · exact .inl ⟨_, _, he⟩

/-- Every event of the merge-and-cleanup section is a merge request for this
PR or one of the fixed follow-up actions. -/
theorem landPRMergeSection_events (cfg : landConfig) (env : PREnv) (pr : prInfo)
    (next : Option prInfo) (sha : String) :
    ∀ e ∈ (landPRMergeSection cfg env pr next sha).2, mergeSectionEvent pr.Number sha e := by
  rcases hms : mergeStep cfg env.merge1 env.merge2 pr.Number sha with ⟨mres, aa, mevs⟩
  have hmev2 : mevs = [Event.mergeRequest pr.Number sha] ∨
      mevs = [Event.mergeRequest pr.Number sha, Event.mergeRequest pr.Number sha] := by
    have hmev := mergeStep_events cfg env.merge1 env.merge2 pr.Number sha
    rw [hms] at hmev
    exact hmev
  have hPmev : ∀ x ∈ mevs, mergeSectionEvent pr.Number sha x := by
    rcases hmev2 with hm | hm <;> rw [hm] <;> intro x hx <;>
      (have hx2 : x = Event.mergeRequest pr.Number sha := by simpa using hx) <;>
      exact .inl hx2
  rcases hws : waitMergeStep aa env.waitMergeOutcome pr.Number with ⟨wres, wevs⟩
  have hwev2 : wevs = [] ∨ wevs = [Event.waitMerge pr.Number] := by
    have hwev := waitMergeStep_events aa env.waitMergeOutcome pr.Number
    rw [hws] at hwev
    exact hwev
  have hPwev : ∀ x ∈ wevs, mergeSectionEvent pr.Number sha x := by
    rcases hwev2 with hw | hw <;> rw [hw] <;> intro x hx
    · simp at hx
    · have hx2 : x = Event.waitMerge pr.Number := by simpa using hx
      exact .inr (.inl hx2)
  rcases hbs : updateBaseStep env pr next with ⟨bres, bevs⟩
  have hPbev : ∀ x ∈ bevs, mergeSectionEvent pr.Number sha x := by
    intro x hx
    have hb := updateBaseStep_events env pr next x (by rw [hbs]; exact hx)
    rcases hb with hb | hb
    · exact .inr (.inr (.inl hb))
    · exact .inr (.inr (.inr (.inl hb)))
  have hPdel : ∀ x ∈ (if cfg.deleteBranch ∧ pr.HeadBranch ≠ "" then
      [Event.deleteBranch pr.HeadBranch] else ([] : List Event)),
      mergeSectionEvent pr.Number sha x := by
    split_ifs <;> intro x hx
    · have hx2 : x = Event.deleteBranch pr.HeadBranch := by simpa using hx
      exact .inr (.inr (.inr (.inr (.inl ⟨_, hx2⟩))))
    · simp at hx
  have hPsync : ∀ x ∈ [Event.gitSync], mergeSectionEvent pr.Number sha x := by
    intro x hx
    have hx2 : x = Event.gitSync := by simpa using hx
    exact .inr (.inr (.inr (.inr (.inr hx2))))
  simp only [landPRMergeSection, hms]
  cases mres <;> (try simp only [hws]) <;> cases wres <;> (try simp only [hbs]) <;>
    cases bres <;>
    (try simp only [List.forall_mem_append, List.append_assoc]) <;>
    first
    | exact hPmev
    | exact ⟨hPmev, hPwev⟩
    | exact ⟨hPmev, hPwev, hPbev⟩
    | exact ⟨hPmev, hPwev, hPbev, hPdel, hPsync⟩

/-- Every merge request recorded by the body carries this PR's number. -/
theorem landPR_mergeRequest_number (cfg : landConfig) (env : PREnv) (pr : prInfo)
    (next : Option prInfo) (n : Nat) (s : String)
    (h : Event.mergeRequest n s ∈ (landPR cfg env pr next).2) : n = pr.Number := by
  by_cases hdry : cfg.dryRun
  · simp [landPR, hdry] at h
  · rcases hmp : mergePhase env pr with ⟨res, evs0⟩
    have hnm := mergePhase_no_merge env pr n s
    rw [hmp] at hnm
    simp only [landPR, hdry, if_false] at h
    rw [hmp] at h
    cases res with
    | error e => simp at h; exact absurd h hnm
    | ok v =>
      have hsec := landPRMergeSection_events cfg env pr next (shaOf env pr)
      have hdone : Event.mergeRequest n s ∈
          (landPRMergeSection cfg env pr next (shaOf env pr)).2 → n = pr.Number := by
        intro hm
        rcases hsec _ hm with hd | hd | hd | hd | hd | hd
        · simp only [Event.mergeRequest.injEq] at hd
          exact hd.1
        · simp at hd
        · rcases hd with ⟨m, b, hd⟩; simp at hd
        · simp at hd
        · rcases hd with ⟨b, hd⟩; simp at hd
        · simp at hd
      by_cases hrc : cfg.requireChecks = true <;>
        rcases hco : env.checksOutcome with msg | u <;>
        (try simp [hrc, hco, or_assoc] at h)
      all_goals
        first
        | exact absurd h hnm
        | exact hdone h
        | (rcases h with h | h
           · exact absurd h hnm
           · exact hdone h)

/-! ### Lemmas about the non-interactive loop -/

/-- In dry-run mode the whole loop prints one would-merge description per PR
and succeeds. -/
theorem landStackLoop_dryRun (cfg : landConfig) (envs : Nat → PREnv)
    (prs : List prInfo) (hdry : cfg.dryRun = true) :
    landStackLoop cfg envs prs =
      (.ok (), prs.map (fun p => .dryRunWouldMerge p.Number)) := by
  induction prs with
  | nil => rfl
  | cons pr rest ih =>
    simp only [landStackLoop, landPR_dryRun cfg (envs pr.Number) pr rest.head? hdry, ih]
    rfl

/-- Every merge request in the loop's trace belongs to some PR of the
plan. -/
theorem landStackLoop_mergeRequest_number (cfg : landConfig) (envs : Nat → PREnv)
    (prs : List prInfo) (n : Nat) (s : String)
    (h : Event.mergeRequest n s ∈ (landStackLoop cfg envs prs).2) :
    ∃ q ∈ prs, n = q.Number := by
  induction prs with
  | nil => simp [landStackLoop] at h
  | cons pr rest ih =>
    rcases hpr : landPR cfg (envs pr.Number) pr rest.head? with ⟨res, evs⟩
    simp only [landStackLoop, hpr] at h
    cases res with
    | error e =>
      simp only at h
      have := landPR_mergeRequest_number cfg (envs pr.Number) pr rest.head? n s
        (by rw [hpr]; exact h)
      exact ⟨pr, by simp, this⟩
    | ok u =>
      simp only [List.mem_append] at h
      rcases h with h | h
      · have := landPR_mergeRequest_number cfg (envs pr.Number) pr rest.head? n s
          (by rw [hpr]; exact h)
        exact ⟨pr, by simp, this⟩
      · obtain ⟨q, hq, hqn⟩ := ih h
        exact ⟨q, by simp [hq], hqn⟩

/-- If some PR of the plan observes CONFLICTING when its mergeability is
checked and no other plan entry reuses its number, then the loop never
issues a merge request for it. -/
theorem landStackLoop_no_merge_for_conflicting (cfg : landConfig) (envs : Nat → PREnv)
    (pr : prInfo) (r : String) (hdry : cfg.dryRun = false)
    (hobs : (envs pr.Number).mergeability 0 = .ok ("CONFLICTING", r) ∨
      (∃ k, 1 ≤ k ∧ k ≤ 3 ∧
        (∀ j < k, ∃ rj, (envs pr.Number).mergeability j = .ok ("UNKNOWN", rj)) ∧
        (envs pr.Number).mergeability k = .ok ("CONFLICTING", r))) :
    ∀ prs : List prInfo, pr ∈ prs → (∀ q ∈ prs, q.Number = pr.Number → q = pr) →
      ∀ s, Event.mergeRequest pr.Number s ∉ (landStackLoop cfg envs prs).2 := by
  have habort : (mergePhase (envs pr.Number) pr).1 =
      .error (.conflicting pr.Number r pr.URL) := by
    rcases hobs with h0 | ⟨k, hk1, hk3, hu, hc⟩
    · rw [mergePhase_conflicting_initial (envs pr.Number) pr r h0]
    · exact mergePhase_conflicting_retry (envs pr.Number) pr k r hk1 hk3 hu hc
  intro prs
  induction prs with
  | nil => intro hmem; simp at hmem
  | cons q rest ih =>
    intro hmem huniq s hin
    rcases hq : landPR cfg (envs q.Number) q rest.head? with ⟨res, evs⟩
    simp only [landStackLoop, hq] at hin
    by_cases hqpr : q = pr
    · subst hqpr
      rcases hmp : mergePhase (envs q.Number) q with ⟨pres, pevs⟩
      rw [hmp] at habort
      simp only at habort
      subst habort
      have hq2 := landPR_phase_error cfg (envs q.Number) q rest.head?
        (.conflicting q.Number r q.URL) pevs hdry hmp
      rw [hq2] at hq
      have hres : res = .error (.conflicting q.Number r q.URL) ∧ evs = pevs := by
        constructor <;> [exact congrArg Prod.fst hq.symm; exact congrArg Prod.snd hq.symm]
      rw [hres.1] at hin
      simp only at hin
      rw [hres.2] at hin
      have := mergePhase_no_merge (envs q.Number) q q.Number s
      rw [hmp] at this
      exact this hin
    · have hqn : q.Number ≠ pr.Number := by
        intro he
        exact hqpr (huniq q (by simp) he)
      cases res with
      | error e =>
        simp only at hin
        have := landPR_mergeRequest_number cfg (envs q.Number) q rest.head? pr.Number s
          (by rw [hq]; exact hin)
        exact hqn this.symm
      | ok u =>
        simp only [List.mem_append] at hin
        rcases hin with hin | hin
        · have := landPR_mergeRequest_number cfg (envs q.Number) q rest.head? pr.Number s
            (by rw [hq]; exact hin)
          exact hqn this.symm
        · have hmem2 : pr ∈ rest := by
            rcases List.mem_cons.1 hmem with hmem | hmem
            · exact absurd hmem.symm hqpr
            · exact hmem
          exact ih hmem2 (fun x hx hxn => huniq x (by simp [hx]) hxn) s hin

/-! ## The dashboard landing path (`land.go`: `landStackFromDashboard`)

`landStackFromDashboard` re-uses the in-memory `prInfo` records of the
dashboard.  `verifyAndSyncCommit` may update the record's head SHA (CI
commits, or a sync/rebase/push); a subsequent `updatePRStatus` refresh may
replace its status fields.  Both are external interactions supplied by the
environment; `PRStatusPatch` carries exactly the fields `updatePRStatus`
writes back. -/

structure PRStatusPatch where
  State : String
  Mergeable : String
  MergeStatus : String
  ChecksStatus : String
deriving DecidableEq

structure DashPREnv where
  verifySync : Except String (Bool × String)
  refresh : Except String PRStatusPatch
  checksOutcome : Except String Unit
  currentHeadSHA : String
  hasAutoCommits : Bool
  merge1 : MergeOutcome
  merge2 : MergeOutcome
  waitMergeOutcome : Except String Unit
  updateBaseOutcome : BaseUpdateOutcome
  conflictsAfterBase : Except String Bool
  rebaseOutcome : Except String Unit
  conflictsAfterRebase : Except String Bool
  deleteBranchOutcome : Except String Unit
  localCheckout : Except String Unit
  localRebaseOutcome : Except String Unit

/-- The PR record as it stands right before the dashboard path's conflict
guard (land.go line 874): head SHA possibly updated by `verifyAndSyncCommit`
and, after a sync, status fields possibly refreshed by `updatePRStatus`
(a failed refresh keeps the stale record). -/
def dashSnapshot (env : DashPREnv) (pr : prInfo) : prInfo :=
  match env.verifySync with
  | .error _ => pr
  | .ok (needsRebase, sha) =>
    let pr1 := { pr with HeadSHA := sha }
    if needsRebase then
      match env.refresh with
      | .error _ => pr1
      | .ok patch =>
        { pr1 with
          State := patch.State
          Mergeable := patch.Mergeable
          MergeStatus := patch.MergeStatus
          ChecksStatus := patch.ChecksStatus }
    else
      pr1

/-- Head SHA used for the dashboard merge request (land.go lines 890-895). -/
def dashShaOf (env : DashPREnv) (pr2 : prInfo) : String :=
  if env.hasAutoCommits then env.currentHeadSHA else pr2.HeadSHA

/-- The base-update step of the dashboard path (land.go lines 929-977),
including the conflict detection after the base change and the escalation
that rebases all remaining PRs. -/
def dashBaseStep (env : DashPREnv) (next : Option prInfo) :
    Except LandError Unit × List Event :=
  match next with
  | none => (.ok (), [])
  | some n =>
    match env.updateBaseOutcome with
    | .closedError => (.error (.dependentClosed n.Number), [.updateBase n.Number ""])
    | .otherError => (.ok (), [.updateBase n.Number ""])
    | .ok =>
      let evs0 : List Event := [.updateBase n.Number "", .sleep 2, .queryConflicts n.Number]
      match env.conflictsAfterBase with
      | .error _ => (.ok (), evs0)
      | .ok false => (.ok (), evs0)
      | .ok true =>
        match env.rebaseOutcome with
        | .error _ => (.error .conflictsAfterBaseUpdate, evs0 ++ [.rebaseRemaining])
        | .ok _ =>
          match env.conflictsAfterRebase with
          | .error _ => (.ok (), evs0 ++ [.rebaseRemaining, .queryConflicts n.Number])
          | .ok true => (.error (.stillConflictingAfterRebase n.Number),
              evs0 ++ [.rebaseRemaining, .queryConflicts n.Number])
          | .ok false => (.ok (), evs0 ++ [.rebaseRemaining, .queryConflicts n.Number])

/-- The local-sync tail of the dashboard body (land.go lines 997-1036):
pull the trunk, and when more PRs remain, checkout the newest remaining
branch and rebase it onto the trunk (a failed checkout only warns, a failed
rebase is fatal). -/
def dashLocalSync (env : DashPREnv) (next : Option prInfo) :
    Except LandError Unit × List Event :=
  match next with
  | none => (.ok (), [.gitSync])
  | some _ =>
    match env.localCheckout with
    | .error _ => (.ok (), [.gitSync, .localRebase])
    | .ok _ =>
      match env.localRebaseOutcome with
      | .error _ => (.error .localRebaseFailed, [.gitSync, .localRebase])
      | .ok _ => (.ok (), [.gitSync, .localRebase])

/-- The merge-and-cleanup tail of one dashboard body iteration
(land.go lines 897-1038): squash-merge with the auto-merge fallback, wait
for a queued merge, base update with conflict recovery, branch deletion,
and local trunk sync plus rebase of the remaining stack. -/
def dashTail (cfg : landConfig) (env : DashPREnv) (pr : prInfo) (next : Option prInfo)
    (sha : String) : Except LandError Unit × List Event :=
  match mergeStep cfg env.merge1 env.merge2 pr.Number sha with
  | (.error e, _, mevs) => (.error e, mevs)
  | (.ok _, autoAfter, mevs) =>
    match waitMergeStep autoAfter env.waitMergeOutcome pr.Number with
    | (.error e, wevs) => (.error e, mevs ++ wevs)
    | (.ok _, wevs) =>
      match dashBaseStep env next with
      | (.error e, bevs) => (.error e, mevs ++ wevs ++ bevs)
      | (.ok _, bevs) =>
        let devs : List Event :=
          if cfg.deleteBranch ∧ pr.HeadBranch ≠ "" then [.deleteBranch pr.HeadBranch]
          else []
        match dashLocalSync env next with
        | (.error e, levs) => (.error e, mevs ++ wevs ++ bevs ++ devs ++ levs)
        | (.ok _, levs) => (.ok (), mevs ++ wevs ++ bevs ++ devs ++ levs)

/-- One iteration of `landStackFromDashboard` (land.go lines 846-1038) for
the PR `pr`.  Already-merged PRs are skipped; the commit is verified and
possibly synced; then the in-memory merge status is checked (CONFLICTING
aborts with the PR's URL before any merge request); then checks, head-SHA
drift, merge with the auto-merge fallback, waiting for a queued merge, the
base update with conflict recovery, branch deletion and local sync. -/
def dashLandPR (cfg : landConfig) (env : DashPREnv) (pr : prInfo) (next : Option prInfo) :
    Except LandError Unit × List Event :=
  if pr.State = "MERGED" then
    (.ok (), [.skipMerged pr.Number])
  else
    match env.verifySync with
    | .error msg => (.error (.verifyFailed pr.Number msg), [.verifySync pr.Number])
    | .ok _ =>
      let pr2 := dashSnapshot env pr
      if pr2.MergeStatus = "CONFLICTING" then
        (.error (.conflicting pr.Number "has conflicts that must be resolved" pr.URL),
          [.verifySync pr.Number])
      else
        let checksStep : Except LandError Unit × List Event :=
          if cfg.requireChecks then
            match env.checksOutcome with
            | .error msg => (.error (.checksFailed pr.Number msg), [.waitChecks pr.Number])
            | .ok _ => (.ok (), [.waitChecks pr.Number])
          else
            (.ok (), [])
        match checksStep with
        | (.error e, evs1) => (.error e, .verifySync pr.Number :: evs1)
        | (.ok _, evs1) =>
          let sec := dashTail cfg env pr next (dashShaOf env pr2)
          (sec.1, .verifySync pr.Number :: evs1 ++ [.queryHeadSHA pr.Number] ++ sec.2)

/-- The dashboard landing loop over the plan (land.go lines 846-1042). -/
def landDashLoop (cfg : landConfig) (envs : Nat → DashPREnv) :
    List prInfo → Except LandError Unit × List Event
  | [] => (.ok (), [])
  | pr :: rest =>
    match dashLandPR cfg (envs pr.Number) pr rest.head? with
    | (.error e, evs) => (.error e, evs)
    | (.ok _, evs) =>
      let r := landDashLoop cfg envs rest
      (r.1, evs ++ r.2)

/-- Classification of the events one dashboard body iteration can emit. -/
def dashEvent (p : Nat) (sha : String) (e : Event) : Prop :=
  e = .skipMerged p ∨ e = .verifySync p ∨ e = .waitChecks p ∨ e = .queryHeadSHA p ∨
    e = .mergeRequest p sha ∨ e = .waitMerge p ∨ (∃ m b, e = .updateBase m b) ∨
    e = .sleep 2 ∨ (∃ m, e = .queryConflicts m) ∨ e = .rebaseRemaining ∨
    (∃ b, e = .deleteBranch b) ∨ e = .gitSync ∨ e = .localRebase

theorem dashBaseStep_events (env : DashPREnv) (next : Option prInfo) :
    ∀ e ∈ (dashBaseStep env next).2,
      (∃ m b, e = Event.updateBase m b) ∨ e = Event.sleep 2 ∨
      (∃ m, e = Event.queryConflicts m) ∨ e = Event.rebaseRemaining := by
  intro e he
  rcases next with _ | nx
  · simp [dashBaseStep] at he
  · rcases hub : env.updateBaseOutcome <;> simp only [dashBaseStep, hub] at he
    · rcases hcb : env.conflictsAfterBase with msg | b
      · rw [hcb] at he
        simp at he
        rcases he with he | he | he
        · exact .inl ⟨_, _, he⟩
        · exact .inr (.inl he)
        · exact .inr (.inr (.inl ⟨_, he⟩))
      · rcases b <;> rw [hcb] at he
        · simp at he
          rcases he with he | he | he
          · exact .inl ⟨_, _, he⟩
          · exact .inr (.inl he)
          · exact .inr (.inr (.inl ⟨_, he⟩))
        · rcases hrb : env.rebaseOutcome with msg | u <;> rw [hrb] at he
          · simp at he
            rcases he with he | he | he | he
            · exact .inl ⟨_, _, he⟩
            · exact .inr (.inl he)
            · exact .inr (.inr (.inl ⟨_, he⟩))
            · exact .inr (.inr (.inr he))
          · rcases hcr : env.conflictsAfterRebase with msg | b2 <;> rw [hcr] at he
            · simp at he
              rcases he with he | he | he | he | he
              · exact .inl ⟨_, _, he⟩
              · exact .inr (.inl he)
              · exact .inr (.inr (.inl ⟨_, he⟩))
              · exact .inr (.inr (.inr he))
              · exact .inr (.inr (.inl ⟨_, he⟩))
            · rcases b2 <;> simp at he <;>
                (rcases he with he | he | he | he | he
                 · exact .inl ⟨_, _, he⟩
                 · exact .inr (.inl he)
                 · exact .inr (.inr (.inl ⟨_, he⟩))
                 · exact .inr (.inr (.inr he))
                 · exact .inr (.inr (.inl ⟨_, he⟩)))
    · simp at he
      exact .inl ⟨_, _, he⟩
    · simp at he
      exact .inl ⟨_, _, he⟩

theorem dashLocalSync_events (env : DashPREnv) (next : Option prInfo) :
    ∀ e ∈ (dashLocalSync env next).2, e = Event.gitSync ∨ e = Event.localRebase := by
  intro e he
  rcases next with _ | nx
  · simp [dashLocalSync] at he
    exact .inl he
  · rcases hlc : env.localCheckout with msg | u <;>
      simp only [dashLocalSync, hlc] at he
    · simp at he
      exact he
    · rcases hlr : env.localRebaseOutcome with msg | u2 <;> rw [hlr] at he <;>
        simp at he <;> exact he

/-- Every event of the dashboard tail is a merge request for this PR or one
of the fixed follow-up actions. -/
theorem dashTail_events (cfg : landConfig) (env : DashPREnv) (pr : prInfo)
    (next : Option prInfo) (sha : String) :
    ∀ e ∈ (dashTail cfg env pr next sha).2, dashEvent pr.Number sha e := by
  rcases hms : mergeStep cfg env.merge1 env.merge2 pr.Number sha with ⟨mres, aa, mevs⟩
  have hmev2 : mevs = [Event.mergeRequest pr.Number sha] ∨
      mevs = [Event.mergeRequest pr.Number sha, Event.mergeRequest pr.Number sha] := by
    have hmev := mergeStep_events cfg env.merge1 env.merge2 pr.Number sha
    rw [hms] at hmev
    exact hmev
  have hPmev : ∀ x ∈ mevs, dashEvent pr.Number sha x := by
    rcases hmev2 with hm | hm <;> rw [hm] <;> intro x hx <;>
      (have hx2 : x = Event.mergeRequest pr.Number sha := by simpa using hx) <;>
      exact .inr (.inr (.inr (.inr (.inl hx2))))
  rcases hws : waitMergeStep aa env.waitMergeOutcome pr.Number with ⟨wres, wevs⟩
  have hwev2 : wevs = [] ∨ wevs = [Event.waitMerge pr.Number] := by
    have hwev := waitMergeStep_events aa env.waitMergeOutcome pr.Number
    rw [hws] at hwev
    exact hwev
  have hPwev : ∀ x ∈ wevs, dashEvent pr.Number sha x := by
    rcases hwev2 with hw | hw <;> rw [hw] <;> intro x hx
    · simp at hx
    · have hx2 : x = Event.waitMerge pr.Number := by simpa using hx
      exact .inr (.inr (.inr (.inr (.inr (.inl hx2)))))
  rcases hbs : dashBaseStep env next with ⟨bres, bevs⟩
  have hPbev : ∀ x ∈ bevs, dashEvent pr.Number sha x := by
    intro x hx
    have hb := dashBaseStep_events env next x (by rw [hbs]; exact hx)
    rcases hb with hb | hb | hb | hb
    · exact .inr (.inr (.inr (.inr (.inr (.inr (.inl hb))))))
    · exact .inr (.inr (.inr (.inr (.inr (.inr (.inr (.inl hb)))))))
    · exact .inr (.inr (.inr (.inr (.inr (.inr (.inr (.inr (.inl hb))))))))
    · exact .inr (.inr (.inr (.inr (.inr (.inr (.inr (.inr (.inr (.inl hb)))))))))
  have hPdel : ∀ x ∈ (if cfg.deleteBranch ∧ pr.HeadBranch ≠ "" then
      [Event.deleteBranch pr.HeadBranch] else ([] : List Event)),
      dashEvent pr.Number sha x := by
    split_ifs <;> intro x hx
    · have hx2 : x = Event.deleteBranch pr.HeadBranch := by simpa using hx
      exact .inr (.inr (.inr (.inr (.inr (.inr (.inr (.inr (.inr (.inr (.inl ⟨_, hx2⟩))))))))))
    · simp at hx
  rcases hls : dashLocalSync env next with ⟨lres, levs⟩
  have hPlev : ∀ x ∈ levs, dashEvent pr.Number sha x := by
    intro x hx
    have hl := dashLocalSync_events env next x (by rw [hls]; exact hx)
    rcases hl with hl | hl
    · exact .inr (.inr (.inr (.inr (.inr (.inr (.inr (.inr (.inr (.inr (.inr (.inl hl)))))))))))
    · exact .inr (.inr (.inr (.inr (.inr (.inr (.inr (.inr (.inr (.inr (.inr (.inr hl)))))))))))
  simp only [dashTail, hms]
  cases mres <;> (try simp only [hws]) <;> cases wres <;> (try simp only [hbs]) <;>
    cases bres <;> (try simp only [hls]) <;> cases lres <;>
    (try simp only [List.forall_mem_append, List.append_assoc]) <;>
    first
    | exact hPmev
    | exact ⟨hPmev, hPwev⟩
    | exact ⟨hPmev, hPwev, hPbev⟩
    | exact ⟨hPmev, hPwev, hPbev, hPdel, hPlev⟩

/-- Every event of one dashboard body iteration is for this PR (or one of
the follow-up actions). -/
theorem dashLandPR_events (cfg : landConfig) (env : DashPREnv) (pr : prInfo)
    (next : Option prInfo) :
    ∀ e ∈ (dashLandPR cfg env pr next).2,
      dashEvent pr.Number (dashShaOf env (dashSnapshot env pr)) e := by
  have hver : dashEvent pr.Number (dashShaOf env (dashSnapshot env pr))
      (Event.verifySync pr.Number) := .inr (.inl rfl)
  have hwc : dashEvent pr.Number (dashShaOf env (dashSnapshot env pr))
      (Event.waitChecks pr.Number) := .inr (.inr (.inl rfl))
  have hq : dashEvent pr.Number (dashShaOf env (dashSnapshot env pr))
      (Event.queryHeadSHA pr.Number) := .inr (.inr (.inr (.inl rfl)))
  by_cases hmg : pr.State = "MERGED"
  · intro e he
    simp [dashLandPR, hmg] at he
    exact .inl he
  · rcases hvs : env.verifySync with msg | v
    · intro e he
      simp [dashLandPR, hmg, hvs] at he
      exact .inr (.inl he)
    · by_cases hcf : (dashSnapshot env pr).MergeStatus = "CONFLICTING"
      · intro e he
        simp [dashLandPR, hmg, hvs, hcf] at he
        exact .inr (.inl he)
      · have htail := dashTail_events cfg env pr next (dashShaOf env (dashSnapshot env pr))
        simp only [dashLandPR, hmg, hvs, hcf, if_false]
        by_cases hrc : cfg.requireChecks = true <;>
          rcases hco : env.checksOutcome with msg | u <;>
          simp only [hrc, hco, if_true, if_false, Bool.not_eq_true, Bool.false_eq_true] <;>
          simp only [List.singleton_append, List.cons_append, List.nil_append,
            List.append_assoc, List.forall_mem_cons, List.forall_mem_append,
            List.forall_mem_singleton, List.forall_mem_nil] <;>
          first
          | exact ⟨hver, hwc, fun x hx => absurd hx (List.not_mem_nil x)⟩
          | exact ⟨hver, hwc, hq, htail⟩
          | exact ⟨hver, hq, htail⟩

/-- When the in-memory merge status checked by the dashboard path is
CONFLICTING, the body aborts with the PR's URL before doing anything
else. -/
theorem dashLandPR_conflicting (cfg : landConfig) (env : DashPREnv) (pr : prInfo)
    (next : Option prInfo) (v : Bool × String)
    (hmg : pr.State ≠ "MERGED") (hvs : env.verifySync = .ok v)
    (hcf : (dashSnapshot env pr).MergeStatus = "CONFLICTING") :
    dashLandPR cfg env pr next =
      (.error (.conflicting pr.Number "has conflicts that must be resolved" pr.URL),
        [.verifySync pr.Number]) := by
  simp [dashLandPR, hmg, hvs, hcf]

/-- Every merge request recorded by the dashboard body carries this PR's
number. -/
theorem dashLandPR_mergeRequest_number (cfg : landConfig) (env : DashPREnv)
    (pr : prInfo) (next : Option prInfo) (n : Nat) (s : String)
    (h : Event.mergeRequest n s ∈ (dashLandPR cfg env pr next).2) : n = pr.Number := by
  have hd := dashLandPR_events cfg env pr next _ h
  rcases hd with hd | hd | hd | hd | hd | hd | hd | hd | hd | hd | hd | hd | hd
  · simp at hd
  · simp at hd
  · simp at hd
  · simp at hd
  · simp only [Event.mergeRequest.injEq] at hd
    exact hd.1
  · simp at hd
  · rcases hd with ⟨m, b, hd⟩; simp at hd
  · simp at hd
  · rcases hd with ⟨m, hd⟩; simp at hd
  · simp at hd
  · rcases hd with ⟨b, hd⟩; simp at hd
  · simp at hd
  · simp at hd

/-- If some PR in the dashboard plan shows CONFLICTING at the conflict guard
and no other plan entry reuses its number, the dashboard landing loop never
issues a merge request for it. -/
theorem landDashLoop_no_merge_for_conflicting (cfg : landConfig)
    (envs : Nat → DashPREnv) (pr : prInfo) (v : Bool × String)
    (hmg : pr.State ≠ "MERGED") (hvs : (envs pr.Number).verifySync = .ok v)
    (hcf : (dashSnapshot (envs pr.Number) pr).MergeStatus = "CONFLICTING") :
    ∀ prs : List prInfo, pr ∈ prs → (∀ q ∈ prs, q.Number = pr.Number → q = pr) →
      ∀ s, Event.mergeRequest pr.Number s ∉ (landDashLoop cfg envs prs).2 := by
  intro prs
  induction prs with
  | nil => intro hmem; simp at hmem
  | cons q rest ih =>
    intro hmem huniq s hin
    rcases hq : dashLandPR cfg (envs q.Number) q rest.head? with ⟨res, evs⟩
    simp only [landDashLoop, hq] at hin
    by_cases hqpr : q = pr
    · subst hqpr
      have hq2 := dashLandPR_conflicting cfg (envs q.Number) q rest.head? v hmg hvs hcf
      rw [hq2] at hq
      have hres : res = .error (.conflicting q.Number
          "has conflicts that must be resolved" q.URL) ∧ evs = [.verifySync q.Number] := by
        constructor <;> [exact congrArg Prod.fst hq.symm; exact congrArg Prod.snd hq.symm]
      rw [hres.1] at hin
      simp only at hin
      rw [hres.2] at hin
      simp at hin
    · have hqn : q.Number ≠ pr.Number := by
        intro he
        exact hqpr (huniq q (by simp) he)
      cases res with
      | error e =>
        simp only at hin
        have := dashLandPR_mergeRequest_number cfg (envs q.Number) q rest.head? pr.Number s
          (by rw [hq]; exact hin)
        exact hqn this.symm
      | ok u =>
        simp only [List.mem_append] at hin
        rcases hin with hin | hin
        · have := dashLandPR_mergeRequest_number cfg (envs q.Number) q rest.head? pr.Number s
            (by rw [hq]; exact hin)
          exact hqn this.symm
        · have hmem2 : pr ∈ rest := by
            rcases List.mem_cons.1 hmem with hmem | hmem
            · exact absurd hmem.symm hqpr
            · exact hmem
          exact ih hmem2 (fun x hx hxn => huniq x (by simp [hx]) hxn) s hin

/-! ## The interactive dashboard loop (`land.go`: `landStackInteractive`)

The loop reads one line per iteration, lowercases and trims it, and
dispatches on the result (land.go lines 315-352). -/

inductive LoopAction where
  | land
  | refresh
  | quit
  | unknown
deriving DecidableEq

/-- ASCII case folding, as `strings.ToLower` acts on ASCII input. -/
def goLowerChar (c : Char) : Char :=
  if 65 ≤ c.toNat ∧ c.toNat ≤ 90 then Char.ofNat (c.toNat + 32) else c

/-- `unicode.IsSpace` on ASCII, the class trimmed by `strings.TrimSpace`. -/
def goIsSpace (c : Char) : Bool :=
  c = ' ' ∨ c = '\t' ∨ c = '\n' ∨ c = '\x0b' ∨ c = '\x0c' ∨ c = '\r'

/-- `strings.TrimSpace(strings.ToLower(input))` on ASCII input. -/
def goToLowerTrim (s : String) : String :=
  ⟨(((s.data.map goLowerChar).dropWhile goIsSpace).reverse.dropWhile goIsSpace).reverse⟩

/-- Dispatch of one operator input line: `strings.TrimSpace(strings.ToLower(input))`
then the `switch action` of land.go lines 329-350. -/
def dispatchDashboardInput (input : String) : LoopAction :=
  let action := goToLowerTrim input
  if action = "y" ∨ action = "yes" then .land
  else if action = "r" ∨ action = "refresh" then .refresh
  else if action = "q" ∨ action = "quit" then .quit
  else .unknown

/-- `allPRsMerged` (land.go lines 832-839). -/
def allPRsMerged (prs : List prInfo) : Bool :=
  prs.all (fun pr => pr.State = "MERGED")

/-- The interactive dashboard loop (land.go lines 315-352), fuel-indexed:
one unit of fuel per iteration, `k` the index of the next input line,
`refreshEnv k prs` the plan state after the k-th refresh.  Each iteration
draws the dashboard, terminates successfully when every PR is merged,
otherwise reads and dispatches one input line. -/
def landStackInteractiveLoop (cfg : landConfig) (denvs : Nat → DashPREnv)
    (refreshEnv : Nat → List prInfo → List prInfo) (inputs : Nat → String) :
    Nat → List prInfo → Nat → Option (Except LandError Unit × List Event)
  | 0, _, _ => none
  | fuel + 1, prs, k =>
    if allPRsMerged prs then
      some (.ok (), [.draw])
    else
      match dispatchDashboardInput (inputs k) with
      | .land =>
        let r := landDashLoop cfg denvs prs
        some (r.1, .draw :: .handoff :: r.2)
      | .refresh =>
        match landStackInteractiveLoop cfg denvs refreshEnv inputs fuel
            (refreshEnv k prs) (k + 1) with
        | none => none
        | some (res, evs) => some (res, .draw :: .fetchStatus :: evs)
      | .quit => some (.error .cancelled, [.draw])
      | .unknown =>
        match landStackInteractiveLoop cfg denvs refreshEnv inputs fuel prs (k + 1) with
        | none => none
        | some (res, evs) => some (res, .draw :: .unknownNotice :: evs)

/-- Mutating external interactions of the landing engine. -/
def isMutationEvent (e : Event) : Bool :=
  match e with
  | .mergeRequest _ _ => true
  | .updateBase _ _ => true
  | .deleteBranch _ => true
  | .gitSync => true
  | .localRebase => true
  | .rebaseRemaining => true
  | _ => false

/-- Read-only status queries of the landing engine (mergeability query,
check polling, head-SHA drift query, conflict probe). -/
def isReadOnlyCheckEvent (e : Event) : Bool :=
  match e with
  | .checkMergeability _ => true
  | .waitChecks _ => true
  | .queryHeadSHA _ => true
  | .queryConflicts _ => true
  | _ => false

/-- C1: whenever a PR's mergeability check observes CONFLICTING, the run
aborts with an error carrying that PR's URL before any merge request is
issued for it — for the per-PR body and for the whole plan loop, in both
the non-interactive path and the dashboard path (where the check is the
in-memory merge status after verify/sync). -/
theorem C1_conflicting_aborts_before_merge :
    (∀ (cfg : landConfig) (env : PREnv) (pr : prInfo) (next : Option prInfo) (r : String),
      cfg.dryRun = false →
      (env.mergeability 0 = .ok ("CONFLICTING", r) ∨
        (∃ k, 1 ≤ k ∧ k ≤ 3 ∧
          (∀ j < k, ∃ rj, env.mergeability j = .ok ("UNKNOWN", rj)) ∧
          env.mergeability k = .ok ("CONFLICTING", r))) →
      (landPR cfg env pr next).1 = .error (.conflicting pr.Number r pr.URL) ∧
        ∀ s, Event.mergeRequest pr.Number s ∉ (landPR cfg env pr next).2) ∧
    (∀ (cfg : landConfig) (envs : Nat → PREnv) (pr : prInfo) (r : String),
      cfg.dryRun = false →
      ((envs pr.Number).mergeability 0 = .ok ("CONFLICTING", r) ∨
        (∃ k, 1 ≤ k ∧ k ≤ 3 ∧
          (∀ j < k, ∃ rj, (envs pr.Number).mergeability j = .ok ("UNKNOWN", rj)) ∧
          (envs pr.Number).mergeability k = .ok ("CONFLICTING", r))) →
      ∀ prs : List prInfo, pr ∈ prs → (∀ q ∈ prs, q.Number = pr.Number → q = pr) →
        ∀ s, Event.mergeRequest pr.Number s ∉ (landStackLoop cfg envs prs).2) ∧
    (∀ (cfg : landConfig) (env : DashPREnv) (pr : prInfo) (next : Option prInfo)
        (v : Bool × String),
      pr.State ≠ "MERGED" → env.verifySync = .ok v →
      (dashSnapshot env pr).MergeStatus = "CONFLICTING" →
      (dashLandPR cfg env pr next).1 =
          .error (.conflicting pr.Number "has conflicts that must be resolved" pr.URL) ∧
        ∀ s, Event.mergeRequest pr.Number s ∉ (dashLandPR cfg env pr next).2) ∧
    (∀ (cfg : landConfig) (envs : Nat → DashPREnv) (pr : prInfo) (v : Bool × String),
      pr.State ≠ "MERGED" → (envs pr.Number).verifySync = .ok v →
      (dashSnapshot (envs pr.Number) pr).MergeStatus = "CONFLICTING" →
      ∀ prs : List prInfo, pr ∈ prs → (∀ q ∈ prs, q.Number = pr.Number → q = pr) →
        ∀ s, Event.mergeRequest pr.Number s ∉ (landDashLoop cfg envs prs).2) := by
  refine ⟨?_, ?_, ?_, ?_⟩
  · intro cfg env pr next r hdry hobs
    have habort : (mergePhase env pr).1 = .error (.conflicting pr.Number r pr.URL) := by
      rcases hobs with h0 | ⟨k, hk1, hk3, hu, hc⟩
      · rw [mergePhase_conflicting_initial env pr r h0]
      · exact mergePhase_conflicting_retry env pr k r hk1 hk3 hu hc
    rcases hmp : mergePhase env pr with ⟨res, evs⟩
    rw [hmp] at habort
    simp only at habort
    subst habort
    have heq := landPR_phase_error cfg env pr next (.conflicting pr.Number r pr.URL) evs
      hdry hmp
    rw [heq]
    refine ⟨rfl, fun s hin => ?_⟩
    have := mergePhase_no_merge env pr pr.Number s
    rw [hmp] at this
    exact this hin
  · intro cfg envs pr r hdry hobs
    exact landStackLoop_no_merge_for_conflicting cfg envs pr r hdry hobs
  · intro cfg env pr next v hmg hvs hcf
    have heq := dashLandPR_conflicting cfg env pr next v hmg hvs hcf
    rw [heq]
    refine ⟨rfl, fun s hin => ?_⟩
    simp at hin
  · intro cfg envs pr v hmg hvs hcf
    exact landDashLoop_no_merge_for_conflicting cfg envs pr v hmg hvs hcf

/-- Witness for C1 at a concrete configuration: one PR whose first
mergeability check reports CONFLICTING. -/
theorem C1_conflicting_aborts_before_merge_witness :
    ((⟨10, 1, false, false, false, false, false, false, false, false⟩ :
        landConfig).dryRun = false ∧
      ({ mergeability := fun _ => .ok ("CONFLICTING", "has merge conflicts"),
         checksOutcome := .ok (), currentHeadSHA := "", hasAutoCommits := false,
         merge1 := .success, merge2 := .success, waitMergeOutcome := .ok (),
         updateBaseOutcome := .ok, deleteBranchOutcome := .ok () } :
           PREnv).mergeability 0 = .ok ("CONFLICTING", "has merge conflicts")) ∧
    ((landPR ⟨10, 1, false, false, false, false, false, false, false, false⟩
        { mergeability := fun _ => .ok ("CONFLICTING", "has merge conflicts"),
          checksOutcome := .ok (), currentHeadSHA := "", hasAutoCommits := false,
          merge1 := .success, merge2 := .success, waitMergeOutcome := .ok (),
          updateBaseOutcome := .ok, deleteBranchOutcome := .ok () }
        ⟨7, "t", "https://example.com/pull/7", "abc", "b7", "main", "", "", "", "OPEN"⟩
        none).1 =
      .error (.conflicting 7 "has merge conflicts" "https://example.com/pull/7") ∧
      ∀ s, Event.mergeRequest 7 s ∉
        (landPR ⟨10, 1, false, false, false, false, false, false, false, false⟩
          { mergeability := fun _ => .ok ("CONFLICTING", "has merge conflicts"),
            checksOutcome := .ok (), currentHeadSHA := "", hasAutoCommits := false,
            merge1 := .success, merge2 := .success, waitMergeOutcome := .ok (),
            updateBaseOutcome := .ok, deleteBranchOutcome := .ok () }
          ⟨7, "t", "https://example.com/pull/7", "abc", "b7", "main", "", "", "", "OPEN"⟩
          none).2) :=
  ⟨⟨rfl, rfl⟩,
    C1_conflicting_aborts_before_merge.1
      ⟨10, 1, false, false, false, false, false, false, false, false⟩
      { mergeability := fun _ => .ok ("CONFLICTING", "has merge conflicts"),
        checksOutcome := .ok (), currentHeadSHA := "", hasAutoCommits := false,
        merge1 := .success, merge2 := .success, waitMergeOutcome := .ok (),
        updateBaseOutcome := .ok, deleteBranchOutcome := .ok () }
      ⟨7, "t", "https://example.com/pull/7", "abc", "b7", "main", "", "", "", "OPEN"⟩
      none "has merge conflicts" rfl (.inl rfl)⟩

/-- C7: the mergeability phase retries at most 3 times, sleeping 2 seconds
before each re-check; if the status is still UNKNOWN after the retries the
phase returns that status without error (so landing proceeds to the check
wait), and the phase errors only when a check observed CONFLICTING or the
query itself failed. -/
theorem C7_unknown_mergeability_retry :
    (∀ (env : PREnv) (pr : prInfo),
      ∃ m, m ≤ 3 ∧
        (mergePhase env pr).2 =
          .checkMergeability pr.Number :: retryTraceShape pr.Number m) ∧
    (∀ (cfg : landConfig) (env : PREnv) (pr : prInfo) (next : Option prInfo)
        (r0 r1 r2 r3 : String),
      env.mergeability 0 = .ok ("UNKNOWN", r0) →
      env.mergeability 1 = .ok ("UNKNOWN", r1) →
      env.mergeability 2 = .ok ("UNKNOWN", r2) →
      env.mergeability 3 = .ok ("UNKNOWN", r3) →
      (mergePhase env pr).1 = .ok ("UNKNOWN", r3) ∧
        (cfg.dryRun = false → cfg.requireChecks = true →
          Event.waitChecks pr.Number ∈ (landPR cfg env pr next).2)) ∧
    (∀ (env : PREnv) (pr : prInfo) (e : LandError),
      (mergePhase env pr).1 = .error e →
      (∃ k, k ≤ 3 ∧ ∃ r, env.mergeability k = .ok ("CONFLICTING", r) ∧
        e = .conflicting pr.Number r pr.URL) ∨
      (∃ k, k ≤ 3 ∧ ∃ msg, env.mergeability k = .error msg ∧
        e = .mergeabilityQueryFailed pr.Number msg)) := by
  refine ⟨mergePhase_shape, ?_, mergePhase_error_characterization⟩
  intro cfg env pr next r0 r1 r2 r3 h0 h1 h2 h3
  have hres := mergePhase_unknown_passthrough env pr r0 r1 r2 r3 h0 h1 h2 h3
  refine ⟨hres, fun hdry hreq => ?_⟩
  rcases hmp : mergePhase env pr with ⟨res, evs⟩
  rw [hmp] at hres
  simp only at hres
  subst hres
  exact landPR_waitChecks_mem cfg env pr next ("UNKNOWN", r3) evs hdry hreq hmp

/-- Witness for C7 at a concrete environment that always reports UNKNOWN:
all four status reads are UNKNOWN, the phase passes UNKNOWN through, and
the landing body reaches the check wait. -/
theorem C7_unknown_mergeability_retry_witness :
    (({ mergeability := fun _ => .ok ("UNKNOWN", "refresh"),
        checksOutcome := .ok (), currentHeadSHA := "abc", hasAutoCommits := false,
        merge1 := .success, merge2 := .success, waitMergeOutcome := .ok (),
        updateBaseOutcome := .ok, deleteBranchOutcome := .ok () } :
          PREnv).mergeability 0 = .ok ("UNKNOWN", "refresh") ∧
      (⟨10, 1, false, true, false, false, false, false, false, false⟩ :
        landConfig).dryRun = false ∧
      (⟨10, 1, false, true, false, false, false, false, false, false⟩ :
        landConfig).requireChecks = true) ∧
    ((mergePhase
        { mergeability := fun _ => .ok ("UNKNOWN", "refresh"),
          checksOutcome := .ok (), currentHeadSHA := "abc", hasAutoCommits := false,
          merge1 := .success, merge2 := .success, waitMergeOutcome := .ok (),
          updateBaseOutcome := .ok, deleteBranchOutcome := .ok () }
        ⟨7, "t", "u", "abc", "b7", "main", "", "", "", "OPEN"⟩).1 =
      .ok ("UNKNOWN", "refresh") ∧
      Event.waitChecks 7 ∈
        (landPR ⟨10, 1, false, true, false, false, false, false, false, false⟩
          { mergeability := fun _ => .ok ("UNKNOWN", "refresh"),
            checksOutcome := .ok (), currentHeadSHA := "abc", hasAutoCommits := false,
            merge1 := .success, merge2 := .success, waitMergeOutcome := .ok (),
            updateBaseOutcome := .ok, deleteBranchOutcome := .ok () }
          ⟨7, "t", "u", "abc", "b7", "main", "", "", "", "OPEN"⟩ none).2) :=
  ⟨⟨rfl, rfl, rfl⟩, by
    have h := C7_unknown_mergeability_retry.2.1
      ⟨10, 1, false, true, false, false, false, false, false, false⟩
      { mergeability := fun _ => .ok ("UNKNOWN", "refresh"),
        checksOutcome := .ok (), currentHeadSHA := "abc", hasAutoCommits := false,
        merge1 := .success, merge2 := .success, waitMergeOutcome := .ok (),
        updateBaseOutcome := .ok, deleteBranchOutcome := .ok () }
      ⟨7, "t", "u", "abc", "b7", "main", "", "", "", "OPEN"⟩ none
      "refresh" "refresh" "refresh" "refresh" rfl rfl rfl rfl
    exact ⟨h.1, h.2 rfl rfl⟩⟩

/-- C3 counterexample: in dry-run mode the per-PR loop body is skipped
entirely before any work — the run emits only the would-merge line and in
particular performs none of the read-only checks (no mergeability query,
no check wait, no head-SHA query), contradicting the claim that dry-run
still performs the same checks and only skips the merge. -/
theorem C3_counterexample :
    landStackLoop ⟨10, 1, false, true, false, true, false, false, false, false⟩
      (fun _ =>
        { mergeability := fun _ => .ok ("MERGEABLE", ""),
          checksOutcome := .ok (), currentHeadSHA := "abc", hasAutoCommits := false,
          merge1 := .success, merge2 := .success, waitMergeOutcome := .ok (),
          updateBaseOutcome := .ok, deleteBranchOutcome := .ok () })
      [⟨7, "t", "u", "abc", "b7", "main", "MERGEABLE", "", "", "OPEN"⟩] =
      (.ok (), [.dryRunWouldMerge 7]) ∧
    Event.checkMergeability 7 ∉
      (landStackLoop ⟨10, 1, false, true, false, true, false, false, false, false⟩
        (fun _ =>
          { mergeability := fun _ => .ok ("MERGEABLE", ""),
            checksOutcome := .ok (), currentHeadSHA := "abc", hasAutoCommits := false,
            merge1 := .success, merge2 := .success, waitMergeOutcome := .ok (),
            updateBaseOutcome := .ok, deleteBranchOutcome := .ok () })
        [⟨7, "t", "u", "abc", "b7", "main", "MERGEABLE", "", "", "OPEN"⟩]).2 ∧
    Event.waitChecks 7 ∉
      (landStackLoop ⟨10, 1, false, true, false, true, false, false, false, false⟩
        (fun _ =>
          { mergeability := fun _ => .ok ("MERGEABLE", ""),
            checksOutcome := .ok (), currentHeadSHA := "abc", hasAutoCommits := false,
            merge1 := .success, merge2 := .success, waitMergeOutcome := .ok (),
            updateBaseOutcome := .ok, deleteBranchOutcome := .ok () })
        [⟨7, "t", "u", "abc", "b7", "main", "MERGEABLE", "", "", "OPEN"⟩]).2 ∧
    Event.queryHeadSHA 7 ∉
      (landStackLoop ⟨10, 1, false, true, false, true, false, false, false, false⟩
        (fun _ =>
          { mergeability := fun _ => .ok ("MERGEABLE", ""),
            checksOutcome := .ok (), currentHeadSHA := "abc", hasAutoCommits := false,
            merge1 := .success, merge2 := .success, waitMergeOutcome := .ok (),
            updateBaseOutcome := .ok, deleteBranchOutcome := .ok () })
        [⟨7, "t", "u", "abc", "b7", "main", "MERGEABLE", "", "", "OPEN"⟩]).2 := by
  refine ⟨rfl, ?_, ?_, ?_⟩ <;> decide

/-- C3 amended: in dry-run mode the run succeeds and emits exactly one
would-merge line per PR in stack order, performing no external mutation
and also none of the read-only checks. -/
theorem C3_amended_dry_run (cfg : landConfig) (envs : Nat → PREnv)
    (prs : List prInfo) (hdry : cfg.dryRun = true) :
    landStackLoop cfg envs prs =
      (.ok (), prs.map (fun p => .dryRunWouldMerge p.Number)) ∧
    ∀ e ∈ (landStackLoop cfg envs prs).2,
      isMutationEvent e = false ∧ isReadOnlyCheckEvent e = false := by
  have heq := landStackLoop_dryRun cfg envs prs hdry
  refine ⟨heq, fun e he => ?_⟩
  rw [heq] at he
  simp only [List.mem_map] at he
  rcases he with ⟨p, _, hpe⟩
  subst hpe
  exact ⟨rfl, rfl⟩

/-- Witness for C3 amended at a concrete dry-run configuration with two
PRs. -/
theorem C3_amended_dry_run_witness :
    (⟨10, 1, false, true, false, true, false, false, false, false⟩ :
      landConfig).dryRun = true ∧
    (landStackLoop ⟨10, 1, false, true, false, true, false, false, false, false⟩
        (fun _ =>
          { mergeability := fun _ => .ok ("MERGEABLE", ""),
            checksOutcome := .ok (), currentHeadSHA := "abc", hasAutoCommits := false,
            merge1 := .success, merge2 := .success, waitMergeOutcome := .ok (),
            updateBaseOutcome := .ok, deleteBranchOutcome := .ok () })
        [⟨3, "a", "ua", "s3", "b3", "main", "MERGEABLE", "", "", "OPEN"⟩,
          ⟨4, "b", "ub", "s4", "b4", "b3", "MERGEABLE", "", "", "OPEN"⟩] =
        (.ok (),
          ([⟨3, "a", "ua", "s3", "b3", "main", "MERGEABLE", "", "", "OPEN"⟩,
            ⟨4, "b", "ub", "s4", "b4", "b3", "MERGEABLE", "", "", "OPEN"⟩] :
              List prInfo).map
            (fun p => .dryRunWouldMerge p.Number)) ∧
      ∀ e ∈ (landStackLoop ⟨10, 1, false, true, false, true, false, false, false, false⟩
          (fun _ =>
            { mergeability := fun _ => .ok ("MERGEABLE", ""),
              checksOutcome := .ok (), currentHeadSHA := "abc", hasAutoCommits := false,
              merge1 := .success, merge2 := .success, waitMergeOutcome := .ok (),
              updateBaseOutcome := .ok, deleteBranchOutcome := .ok () })
          [⟨3, "a", "ua", "s3", "b3", "main", "MERGEABLE", "", "", "OPEN"⟩,
            ⟨4, "b", "ub", "s4", "b4", "b3", "MERGEABLE", "", "", "OPEN"⟩]).2,
        isMutationEvent e = false ∧ isReadOnlyCheckEvent e = false) :=
  ⟨rfl,
    C3_amended_dry_run ⟨10, 1, false, true, false, true, false, false, false, false⟩
      (fun _ =>
        { mergeability := fun _ => .ok ("MERGEABLE", ""),
          checksOutcome := .ok (), currentHeadSHA := "abc", hasAutoCommits := false,
          merge1 := .success, merge2 := .success, waitMergeOutcome := .ok (),
          updateBaseOutcome := .ok, deleteBranchOutcome := .ok () })
      [⟨3, "a", "ua", "s3", "b3", "main", "MERGEABLE", "", "", "OPEN"⟩,
        ⟨4, "b", "ub", "s4", "b4", "b3", "MERGEABLE", "", "", "OPEN"⟩] rfl⟩

/-- A dashboard environment whose external calls all succeed trivially;
its fields are never reached in the runs below. -/
def dashEnvTrivial : DashPREnv where
  verifySync := .ok (false, "")
  refresh := .ok ⟨"", "", "", ""⟩
  checksOutcome := .ok ()
  currentHeadSHA := ""
  hasAutoCommits := false
  merge1 := .success
  merge2 := .success
  waitMergeOutcome := .ok ()
  updateBaseOutcome := .ok
  conflictsAfterBase := .ok false
  rebaseOutcome := .ok ()
  conflictsAfterRebase := .ok false
  deleteBranchOutcome := .ok ()
  localCheckout := .ok ()
  localRebaseOutcome := .ok ()

/-- C4 counterexample: the interactive prompt does not accept the input
`land` — it is dispatched as an unknown command, not as the confirmation
to land.  Concretely, with one open PR and operator inputs `land` then
`q`, the loop re-prompts and then exits cancelled; the landing engine is
never handed control. -/
theorem C4_counterexample :
    dispatchDashboardInput "land" = .unknown ∧
    landStackInteractiveLoop
        ⟨10, 1, false, true, false, false, false, false, false, false⟩
        (fun _ => dashEnvTrivial) (fun _ prs => prs)
        (fun k => if k = 0 then "land" else "q") 3
        [⟨7, "t", "u", "abc", "b7", "main", "MERGEABLE", "", "PASSING", "OPEN"⟩] 0 =
      some (.error .cancelled, [.draw, .unknownNotice, .draw]) ∧
    Event.handoff ∉ [Event.draw, Event.unknownNotice, Event.draw] := by
  refine ⟨by decide, rfl, by decide⟩

/-- C4 amended: the confirmation inputs are exactly `y`/`yes` (after
lower-casing and trimming) for landing, `r`/`refresh` for refreshing,
`q`/`quit` for quitting; anything else — including `land` — re-prompts.
When all PRs are merged the loop exits successfully without reading
input; otherwise one input line is dispatched per iteration with the
corresponding continuation. -/
theorem C4_amended_dashboard_inputs :
    (dispatchDashboardInput "y" = .land ∧ dispatchDashboardInput "yes" = .land ∧
      dispatchDashboardInput " Y " = .land ∧
      dispatchDashboardInput "r" = .refresh ∧
      dispatchDashboardInput "refresh" = .refresh ∧
      dispatchDashboardInput "q" = .quit ∧ dispatchDashboardInput "quit" = .quit ∧
      dispatchDashboardInput "land" = .unknown) ∧
    (∀ (cfg : landConfig) (denvs : Nat → DashPREnv)
        (refreshEnv : Nat → List prInfo → List prInfo) (inputs : Nat → String)
        (fuel : Nat) (prs : List prInfo) (k : Nat),
      allPRsMerged prs = true →
        landStackInteractiveLoop cfg denvs refreshEnv inputs (fuel + 1) prs k =
          some (.ok (), [.draw])) ∧
    (∀ (cfg : landConfig) (denvs : Nat → DashPREnv)
        (refreshEnv : Nat → List prInfo → List prInfo) (inputs : Nat → String)
        (fuel : Nat) (prs : List prInfo) (k : Nat),
      allPRsMerged prs = false →
      (dispatchDashboardInput (inputs k) = .land →
        landStackInteractiveLoop cfg denvs refreshEnv inputs (fuel + 1) prs k =
          some ((landDashLoop cfg denvs prs).1,
            .draw :: .handoff :: (landDashLoop cfg denvs prs).2)) ∧
      (dispatchDashboardInput (inputs k) = .quit →
        landStackInteractiveLoop cfg denvs refreshEnv inputs (fuel + 1) prs k =
          some (.error .cancelled, [.draw])) ∧
      (dispatchDashboardInput (inputs k) = .refresh →
        landStackInteractiveLoop cfg denvs refreshEnv inputs (fuel + 1) prs k =
          (landStackInteractiveLoop cfg denvs refreshEnv inputs fuel
              (refreshEnv k prs) (k + 1)).map
            (fun p => (p.1, .draw :: .fetchStatus :: p.2))) ∧
      (dispatchDashboardInput (inputs k) = .unknown →
        landStackInteractiveLoop cfg denvs refreshEnv inputs (fuel + 1) prs k =
          (landStackInteractiveLoop cfg denvs refreshEnv inputs fuel prs (k + 1)).map
            (fun p => (p.1, .draw :: .unknownNotice :: p.2)))) := by
  refine ⟨⟨by decide, by decide, by decide, by decide, by decide, by decide, by decide,
    by decide⟩, ?_, ?_⟩
  · intro cfg denvs refreshEnv inputs fuel prs k hall
    simp [landStackInteractiveLoop, hall]
  · intro cfg denvs refreshEnv inputs fuel prs k hall
    refine ⟨?_, ?_, ?_, ?_⟩ <;> intro hdisp
    · simp [landStackInteractiveLoop, hall, hdisp]
    · simp [landStackInteractiveLoop, hall, hdisp]
    · rcases hrec : landStackInteractiveLoop cfg denvs refreshEnv inputs fuel
          (refreshEnv k prs) (k + 1) with _ | ⟨res, evs⟩ <;>
        simp [landStackInteractiveLoop, hall, hdisp, hrec]
    · rcases hrec : landStackInteractiveLoop cfg denvs refreshEnv inputs fuel
          prs (k + 1) with _ | ⟨res, evs⟩ <;>
        simp [landStackInteractiveLoop, hall, hdisp, hrec]

/-- Witness for C4 amended: a fully-merged stack exits with `[draw]`, and
an open stack with input `q` exits cancelled. -/
theorem C4_amended_dashboard_inputs_witness :
    (allPRsMerged [⟨1, "t", "u", "s", "b", "main", "", "", "", "MERGED"⟩] = true ∧
      landStackInteractiveLoop
          ⟨10, 1, false, true, false, false, false, false, false, false⟩
          (fun _ => dashEnvTrivial) (fun _ prs => prs) (fun _ => "q") 1
          [⟨1, "t", "u", "s", "b", "main", "", "", "", "MERGED"⟩] 0 =
        some (.ok (), [.draw])) ∧
    (allPRsMerged [⟨1, "t", "u", "s", "b", "main", "", "", "", "OPEN"⟩] = false ∧
      dispatchDashboardInput "q" = .quit ∧
      landStackInteractiveLoop
          ⟨10, 1, false, true, false, false, false, false, false, false⟩
          (fun _ => dashEnvTrivial) (fun _ prs => prs) (fun _ => "q") 1
          [⟨1, "t", "u", "s", "b", "main", "", "", "", "OPEN"⟩] 0 =
        some (.error .cancelled, [.draw])) :=
  ⟨⟨by decide,
    C4_amended_dashboard_inputs.2.1
      ⟨10, 1, false, true, false, false, false, false, false, false⟩
      (fun _ => dashEnvTrivial) (fun _ prs => prs) (fun _ => "q") 0
      [⟨1, "t", "u", "s", "b", "main", "", "", "", "MERGED"⟩] 0 (by decide)⟩,
    ⟨by decide, by decide,
      (C4_amended_dashboard_inputs.2.2
        ⟨10, 1, false, true, false, false, false, false, false, false⟩
        (fun _ => dashEnvTrivial) (fun _ prs => prs) (fun _ => "q") 0
        [⟨1, "t", "u", "s", "b", "main", "", "", "", "OPEN"⟩] 0 (by decide)).2.1
        (by decide)⟩⟩

/-- `Commit.GetAttr` (types.go lines 51-58): the value of the first
attribute whose key matches, else the empty string. -/
def GetAttr : List (String × String) → String → String
  | [], _ => ""
  | kv :: rest, key => if kv.1 = key then kv.2 else GetAttr rest key

/-- The update branch of `Commit.SetAttr` (types.go lines 83-88): replace
the value of the first attribute whose key matches, in place. -/
def updateFirstAttr : List (String × String) → String → String → List (String × String)
  | [], _, _ => []
  | kv :: rest, key, value =>
    if kv.1 = key then (kv.1, value) :: rest else kv :: updateFirstAttr rest key value

/-- `Commit.SetAttr` (types.go lines 82-93): update the first matching
key in place, else append the new pair and sort by key. -/
def SetAttr (attrs : List (String × String)) (key value : String) :
    List (String × String) :=
  if attrs.any (fun kv => kv.1 == key) then updateFirstAttr attrs key value
  else List.insertionSort (fun a b => a.1 < b.1) (attrs ++ [(key, value)])

/-- No two attributes share a key. -/
def distinctKeys (attrs : List (String × String)) : Prop :=
  (attrs.map Prod.fst).Nodup

instance (attrs : List (String × String)) : Decidable (distinctKeys attrs) := by
  unfold distinctKeys
  infer_instance

/-- A sequence of `SetAttr` operations applied in order. -/
def applySets (attrs : List (String × String)) (ops : List (String × String)) :
    List (String × String) :=
  ops.foldl (fun a op => SetAttr a op.1 op.2) attrs

/-- The value of the most recent operation on key `k` in a sequence of
`SetAttr` operations, if any. -/
def lastSet : List (String × String) → String → Option String
  | [], _ => none
  | op :: rest, k =>
    match lastSet rest k with
    | some v => some v
    | none => if op.1 = k then some op.2 else none

lemma updateFirstAttr_map_fst (attrs : List (String × String)) (k v : String) :
    (updateFirstAttr attrs k v).map Prod.fst = attrs.map Prod.fst := by
  induction attrs with
  | nil => rfl
  | cons kv rest ih => by_cases h : kv.1 = k <;> simp [updateFirstAttr, h, ih]

lemma any_key_iff (attrs : List (String × String)) (k : String) :
    attrs.any (fun kv => kv.1 == k) = true ↔ k ∈ attrs.map Prod.fst := by
  simp [List.any_eq_true, List.mem_map, beq_iff_eq]

lemma getAttr_updateFirst_same (attrs : List (String × String)) (k v : String)
    (h : attrs.any (fun kv => kv.1 == k) = true) :
    GetAttr (updateFirstAttr attrs k v) k = v := by
  induction attrs with
  | nil => simp at h
  | cons kv rest ih =>
    by_cases hk : kv.1 = k
    · simp [updateFirstAttr, hk, GetAttr]
    · have hr : rest.any (fun kv => kv.1 == k) = true := by
        simp only [List.any_cons, Bool.or_eq_true, beq_iff_eq] at h
        rcases h with h | h
        · exact absurd h hk
        · exact h
      simp [updateFirstAttr, hk, GetAttr, ih hr]

lemma getAttr_updateFirst_other (attrs : List (String × String)) (k k' v : String)
    (hne : k ≠ k') :
    GetAttr (updateFirstAttr attrs k' v) k = GetAttr attrs k := by
  induction attrs with
  | nil => rfl
  | cons kv rest ih =>
    by_cases hk : kv.1 = k'
    · have h1 : updateFirstAttr (kv :: rest) k' v = (kv.1, v) :: rest := by
        simp [updateFirstAttr, hk]
      have hkk : ¬ kv.1 = k := by rw [hk]; exact fun hh => hne hh.symm
      rw [h1]
      simp [GetAttr, hkk]
    · have h1 : updateFirstAttr (kv :: rest) k' v = kv :: updateFirstAttr rest k' v := by
        simp [updateFirstAttr, hk]
      rw [h1]
      by_cases hkk : kv.1 = k <;> simp [GetAttr, hkk, ih]

lemma getAttr_not_mem (l : List (String × String)) (k : String)
    (h : k ∉ l.map Prod.fst) : GetAttr l k = "" := by
  induction l with
  | nil => rfl
  | cons kv rest ih =>
    rw [List.map_cons, List.mem_cons] at h
    push_neg at h
    have hne : ¬ kv.1 = k := fun hh => h.1 hh.symm
    simp [GetAttr, hne]
    exact ih h.2

lemma getAttr_mem_distinct (l : List (String × String)) (k v : String)
    (hd : distinctKeys l) (hm : (k, v) ∈ l) : GetAttr l k = v := by
  induction l with
  | nil => cases hm
  | cons kv rest ih =>
    have hd' : distinctKeys rest ∧ kv.1 ∉ rest.map Prod.fst := by
      unfold distinctKeys at hd
      rw [List.map_cons, List.nodup_cons] at hd
      exact ⟨hd.2, hd.1⟩
    rcases List.mem_cons.1 hm with he | ht
    · rw [← he]; simp [GetAttr]
    · have hk : k ∈ rest.map Prod.fst := List.mem_map.2 ⟨(k, v), ht, rfl⟩
      have hne : ¬ kv.1 = k := fun hh => hd'.2 (hh ▸ hk)
      simp [GetAttr, hne]
      exact ih hd'.1 ht

lemma getAttr_pair_mem (attrs : List (String × String)) (k : String)
    (hk : k ∈ attrs.map Prod.fst) : (k, GetAttr attrs k) ∈ attrs := by
  induction attrs with
  | nil => simp at hk
  | cons kv rest ih =>
    by_cases h : kv.1 = k
    · have : (k, GetAttr (kv :: rest) k) = kv := by
        simp [GetAttr, h]
        rw [← h]
      rw [this]; exact List.mem_cons_self kv rest
    · rw [List.map_cons, List.mem_cons] at hk
      rcases hk with he | ht
      · exact absurd he.symm h
      · simp [GetAttr, h]
        exact Or.inr (ih ht)

lemma fresh_append_nodup (attrs : List (String × String)) (k v : String)
    (hd : distinctKeys attrs) (h : ¬ attrs.any (fun kv => kv.1 == k) = true) :
    distinctKeys (attrs ++ [(k, v)]) := by
  unfold distinctKeys
  rw [List.map_append]
  refine List.Nodup.append hd (List.nodup_singleton k) ?_
  intro a ha hb
  simp only [List.map_cons, List.map_nil, List.mem_singleton] at hb
  subst hb
  exact h ((any_key_iff attrs a).2 ha)

lemma setAttr_distinct (attrs : List (String × String)) (k v : String)
    (hd : distinctKeys attrs) : distinctKeys (SetAttr attrs k v) := by
  unfold SetAttr
  by_cases h : attrs.any (fun kv => kv.1 == k) = true
  · rw [if_pos h]
    unfold distinctKeys
    rw [updateFirstAttr_map_fst]
    exact hd
  · rw [if_neg h]
    have hperm := List.perm_insertionSort
      (fun a b : String × String => a.1 < b.1) (attrs ++ [(k, v)])
    exact ((hperm.map Prod.fst).nodup_iff).2 (fresh_append_nodup attrs k v hd h)

lemma getAttr_setAttr_same (attrs : List (String × String)) (k v : String)
    (hd : distinctKeys attrs) : GetAttr (SetAttr attrs k v) k = v := by
  unfold SetAttr
  by_cases h : attrs.any (fun kv => kv.1 == k) = true
  · rw [if_pos h]
    exact getAttr_updateFirst_same attrs k v h
  · rw [if_neg h]
    have hperm := List.perm_insertionSort
      (fun a b : String × String => a.1 < b.1) (attrs ++ [(k, v)])
    refine getAttr_mem_distinct _ k v ?_ ?_
    · unfold distinctKeys
      exact ((hperm.map Prod.fst).nodup_iff).2 (fresh_append_nodup attrs k v hd h)
    · exact hperm.mem_iff.2 (by simp)

lemma getAttr_setAttr_other (attrs : List (String × String)) (k k' v : String)
    (hne : k ≠ k') (hd : distinctKeys attrs) :
    GetAttr (SetAttr attrs k' v) k = GetAttr attrs k := by
  unfold SetAttr
  by_cases h : attrs.any (fun kv => kv.1 == k') = true
  · rw [if_pos h]
    exact getAttr_updateFirst_other attrs k k' v hne
  · rw [if_neg h]
    have hperm := List.perm_insertionSort
      (fun a b : String × String => a.1 < b.1) (attrs ++ [(k', v)])
    by_cases hk : k ∈ attrs.map Prod.fst
    · refine getAttr_mem_distinct _ k (GetAttr attrs k) ?_ ?_
      · unfold distinctKeys
        exact ((hperm.map Prod.fst).nodup_iff).2 (fresh_append_nodup attrs k' v hd h)
      · exact hperm.mem_iff.2 (List.mem_append_left _ (getAttr_pair_mem attrs k hk))
    · rw [getAttr_not_mem attrs k hk]
      refine getAttr_not_mem _ k ?_
      intro hmem
      have := (hperm.map Prod.fst).mem_iff.1 hmem
      rw [List.map_append] at this
      rcases List.mem_append.1 this with hl | hr
      · exact hk hl
      · simp only [List.map_cons, List.map_nil, List.mem_singleton] at hr
        exact hne hr

lemma applySets_getAttr_none (ops : List (String × String)) (k : String) :
    ∀ attrs, distinctKeys attrs → lastSet ops k = none →
      GetAttr (applySets attrs ops) k = GetAttr attrs k := by
  induction ops with
  | nil => intro attrs _ _; rfl
  | cons op rest ih =>
    intro attrs hd h
    have hl : lastSet rest k = none ∧ ¬ op.1 = k := by
      unfold lastSet at h
      rcases hr : lastSet rest k with _ | v
      · rw [hr] at h
        refine ⟨rfl, fun hh => ?_⟩
        rw [if_pos hh] at h
        cases h
      · rw [hr] at h
        cases h
    have happ : applySets attrs (op :: rest) = applySets (SetAttr attrs op.1 op.2) rest :=
      rfl
    rw [happ, ih _ (setAttr_distinct attrs op.1 op.2 hd) hl.1]
    exact getAttr_setAttr_other attrs k op.1 op.2 (fun hh => hl.2 hh.symm) hd

/-- C9: starting from attributes with pairwise-distinct keys, any sequence
of `SetAttr` operations keeps the keys pairwise distinct, and `GetAttr`
returns the value of the most recent `SetAttr` on that key. -/
theorem C9_attr_keys_unique (attrs ops : List (String × String))
    (hd : distinctKeys attrs) :
    distinctKeys (applySets attrs ops) ∧
    ∀ k v, lastSet ops k = some v → GetAttr (applySets attrs ops) k = v := by
  induction ops generalizing attrs with
  | nil =>
    refine ⟨hd, fun k v h => ?_⟩
    cases h
  | cons op rest ih =>
    have hd' := setAttr_distinct attrs op.1 op.2 hd
    have happ : applySets attrs (op :: rest) = applySets (SetAttr attrs op.1 op.2) rest :=
      rfl
    refine ⟨happ ▸ (ih _ hd').1, fun k v h => ?_⟩
    rw [happ]
    unfold lastSet at h
    rcases hr : lastSet rest k with _ | v'
    · rw [hr] at h
      by_cases hk : op.1 = k
      · rw [if_pos hk] at h
        injection h with hv
        subst hv
        rw [applySets_getAttr_none rest k _ hd' hr, ← hk]
        exact getAttr_setAttr_same attrs op.1 op.2 hd
      · rw [if_neg hk] at h
        cases h
    · rw [hr] at h
      injection h with hv
      subst hv
      exact (ih _ hd').2 k v' hr

/-- Witness for C9: two distinct keys, three operations ending with a
second write to key `b`; the keys stay distinct and `GetAttr "b"` returns
the latest value. -/
theorem C9_attr_keys_unique_witness :
    distinctKeys [("a", "1"), ("c", "2")] ∧
    lastSet [("b", "x"), ("a", "y"), ("b", "z")] "b" = some "z" ∧
    distinctKeys (applySets [("a", "1"), ("c", "2")]
      [("b", "x"), ("a", "y"), ("b", "z")]) ∧
    GetAttr (applySets [("a", "1"), ("c", "2")]
      [("b", "x"), ("a", "y"), ("b", "z")]) "b" = "z" :=
  ⟨by decide, by decide,
    (C9_attr_keys_unique [("a", "1"), ("c", "2")]
      [("b", "x"), ("a", "y"), ("b", "z")] (by decide)).1,
    (C9_attr_keys_unique [("a", "1"), ("c", "2")]
      [("b", "x"), ("a", "y"), ("b", "z")] (by decide)).2 "b" "z" (by decide)⟩

/-- `gitLogs size extra...` (git.go lines 41-45) runs `git log -<size> …`.
The external `git log -n base..target` output is modelled directly as the
list of commits it denotes: the commits of the range, newest first,
truncated to the first `size`; `gitFail` injects a process failure. -/
def gitLogsR {α : Type} (size : Nat) (gitFail : Option String)
    (rangeNewestFirst : List α) : Except String (List α) :=
  match gitFail with
  | some e => .error e
  | none => .ok (rangeNewestFirst.take size)

/-- `revert` (utils.go lines 70-76): `out[len(list)-i-1] = list[i]`,
i.e. list reversal. -/
def revert {α : Type} (list : List α) : List α :=
  list.reverse

/-- `getStackedCommits base target` (git.go lines 144-155): parse
`gitLogs(100, "base..target")` and sort from oldest to newest.  Parsing of
the textual log is the identity on the commit list the text denotes. -/
def getStackedCommits {α : Type} (gitFail : Option String)
    (rangeNewestFirst : List α) : Except String (List α) :=
  match gitLogsR 100 gitFail rangeNewestFirst with
  | .error e => .error e
  | .ok list => .ok (revert list)

/-- C10: `getStackedCommits` inspects only the 100 most recent commits of
the range — its result depends only on the first 100 entries of the
newest-first log — and on a range deeper than 100 commits it still
succeeds, returning exactly the 100 most recent (oldest first) and
silently omitting the non-empty tail of older commits. -/
theorem C10_log_limit_100 {α : Type} (range : List α) :
    (∀ range' : List α, range.take 100 = range'.take 100 →
      ∀ gf : Option String,
        getStackedCommits gf range = getStackedCommits gf range') ∧
    getStackedCommits none range = .ok (revert (range.take 100)) ∧
    (100 < range.length →
      ∃ omitted : List α, omitted ≠ [] ∧ range = range.take 100 ++ omitted ∧
        getStackedCommits none range = .ok (revert (range.take 100)) ∧
        (revert (range.take 100)).length = 100) := by
  refine ⟨?_, rfl, ?_⟩
  · intro range' htake gf
    cases gf with
    | none =>
      show Except.ok (revert (range.take 100)) = Except.ok (revert (range'.take 100))
      rw [htake]
    | some e => rfl
  · intro hlen
    refine ⟨range.drop 100, ?_, (List.take_append_drop 100 range).symm, rfl, ?_⟩
    · intro hnil
      rw [List.drop_eq_nil_iff] at hnil
      omega
    · show (range.take 100).reverse.length = 100
      rw [List.length_reverse, List.length_take]
      omega

/-- Witness for C10 on a concrete range of 105 commits: the range is
deeper than 100, yet landing data is returned successfully with exactly
the 100 most recent commits and a non-empty omitted tail. -/
theorem C10_log_limit_100_witness :
    100 < (List.range 105).length ∧
    ∃ omitted : List Nat, omitted ≠ [] ∧
      List.range 105 = (List.range 105).take 100 ++ omitted ∧
      getStackedCommits none (List.range 105) =
        .ok (revert ((List.range 105).take 100)) ∧
      (revert ((List.range 105).take 100)).length = 100 :=
  ⟨by decide, (C10_log_limit_100 (List.range 105)).2.2 (by decide)⟩

/-- `strings.TrimSpace` (unicode whitespace) on a character list. -/
def trimSpace (s : List Char) : List Char :=
  ((s.dropWhile goIsSpace).reverse.dropWhile goIsSpace).reverse

/-- RE2 `\s`: `[\t\n\f\r ]`. -/
def isRegexWS (c : Char) : Bool :=
  c = ' ' ∨ c = '\t' ∨ c = '\n' ∨ c = '\x0c' ∨ c = '\r'

/-- RE2 `\w`: `[0-9A-Za-z_]`. -/
def isWordChar (c : Char) : Bool :=
  c.isAlphanum || c = '_'

/-- Literal match of `pat` at the head of `s`. -/
def matchesAt : List Char → List Char → Bool
  | [], _ => true
  | _ :: _, [] => false
  | p :: ps, c :: cs => p == c && matchesAt ps cs

/-- `strings.ReplaceAll(body, "\r\n", "\n")` (land.go line 1197):
left-to-right non-overlapping replacement. -/
def replaceCRLF : List Char → List Char
  | [] => []
  | [c] => [c]
  | c :: d :: rest =>
    if c = '\r' ∧ d = '\n' then '\n' :: replaceCRLF rest
    else c :: replaceCRLF (d :: rest)

def htmlOpen : List Char := ['<', '!', '-', '-']

/-- Scan for the first `-->` and return the remainder after it, if any:
the non-greedy `.*?-->` extension of `htmlCommentRegex`. -/
def dropToClose : List Char → Option (List Char)
  | [] => none
  | c :: rest =>
    if matchesAt ['-', '-', '>'] (c :: rest) then some (rest.drop 2)
    else dropToClose rest

/-- One pass of `htmlCommentRegex.ReplaceAllString(body, "")` (land.go
line 1219): at each position, if `<!--` starts here and a `-->` follows,
delete through the first `-->` and continue after it; otherwise keep the
character. -/
def rhcF : Nat → List Char → List Char
  | 0, s => s
  | _, [] => []
  | fuel + 1, c :: rest =>
    if matchesAt htmlOpen (c :: rest) then
      match dropToClose (rest.drop 3) with
      | some rest' => rhcF fuel rest'
      | none => c :: rhcF fuel rest
    else c :: rhcF fuel rest

def removeHtmlComments (s : List Char) : List Char :=
  rhcF s.length s

/-- The suffix of `w ++ rest` that starts at the last newline of `w`. -/
def lastNlTail : List Char → List Char → List Char
  | [], rest => rest
  | c :: cs, rest =>
    if '\n' ∈ cs then lastNlTail cs rest
    else if c = '\n' then c :: (cs ++ rest)
    else rest

/-- The `\s*$` tail of `markdownCommentRegex` in multi-line mode: from an
end-of-line position, greedily consume whitespace as long as the stop
position is again at an end of line (so consume everything if whitespace
runs to the end of the string, else stop at the last newline of the run). -/
def extendWS (s : List Char) : List Char :=
  if s.dropWhile isRegexWS = [] then []
  else lastNlTail (s.takeWhile isRegexWS) (s.dropWhile isRegexWS)

/-- Attempt to match `markdownCommentRegex`
(`^\[[\w/]*]:\s*#\s*[("'].*[)"']?\s*$`) at a line start; on success
return the remainder after the matched portion. -/
def mdTryLine (s : List Char) : Option (List Char) :=
  match s with
  | c0 :: r1 =>
    if c0 = '[' then
      match r1.dropWhile (fun c => isWordChar c ∨ c = '/') with
      | c1 :: c2 :: r3 =>
        if c1 = ']' ∧ c2 = ':' then
          match r3.dropWhile isRegexWS with
          | c3 :: r5 =>
            if c3 = '#' then
              match r5.dropWhile isRegexWS with
              | c4 :: r7 =>
                if c4 = '(' ∨ c4 = '"' ∨ c4 = Char.ofNat 39 then
                  some (extendWS (r7.dropWhile (fun d => ¬ d = '\n')))
                else none
              | [] => none
            else none
          | [] => none
        else none
      | _ => none
    else none
  | [] => none

/-- `markdownCommentRegex.ReplaceAllString(body, "")` (land.go line 1222):
try the line-anchored match at each line start, deleting matches. -/
def mdRemoveF : Nat → List Char → List Char
  | 0, s => s
  | _, [] => []
  | fuel + 1, s =>
    match mdTryLine s with
    | some rest => mdRemoveF fuel rest
    | none =>
      match s.dropWhile (fun c => ¬ c = '\n') with
      | [] => s
      | _ :: rest2 =>
        s.takeWhile (fun c => ¬ c = '\n') ++ '\n' :: mdRemoveF fuel rest2

def mdRemove (s : List Char) : List Char :=
  mdRemoveF s.length s

/-- `removeComments` (land.go lines 1217-1225). -/
def removeComments (s : List Char) : List Char :=
  mdRemove (removeHtmlComments s)

/-- `strings.Split(body, "\n")`. -/
def splitNl : List Char → List (List Char)
  | [] => [[]]
  | c :: rest =>
    if c = '\n' then [] :: splitNl rest
    else match splitNl rest with
      | [] => [[c]]
      | l :: ls => (c :: l) :: ls

/-- `strings.Join(lines, "\n")`. -/
def joinNl : List (List Char) → List Char
  | [] => []
  | [l] => l
  | l :: ls => l ++ '\n' :: joinNl ls

/-- `#\d+` somewhere in the rest of the line. -/
def hasHashDigit : List Char → Bool
  | [] => false
  | c :: rest =>
    if c = '#' then
      (match rest with
        | d :: _ => d.isDigit
        | [] => false) || hasHashDigit rest
    else hasHashDigit rest

/-- `prReferenceRegex` (`^\*.*#\d+`) on a (trimmed) line. -/
def prRefMatch (l : List Char) : Bool :=
  match l with
  | c :: rest => c == '*' && hasHashDigit rest
  | [] => false

def hyphens : List Char := ['-', '-', '-']

/-- `hasPrecedingEmptyLine` (land.go lines 1265-1275): the loop returns in
its first iteration, so this is just a check of line `i-1`. -/
def hasPrecedingEmptyLine (lines : List (List Char)) (i : Nat) : Bool :=
  decide (0 < i) && (trimSpace (lines.getD (i - 1) []) == [])

/-- `hasStackInfoAfter` (land.go lines 1278-1285). -/
def hasStackInfoAfter (lines : List (List Char)) (i : Nat) : Bool :=
  (lines.drop (i + 1)).any (fun l => prRefMatch (trimSpace l))

/-- Downward scan of `findFirstEmptyLineBefore` (land.go lines 1288-1298)
starting at line `j`. -/
def ffelB (lines : List (List Char)) : Nat → Nat
  | 0 => if trimSpace (lines.getD 0 []) == [] then 0 else 1
  | j + 1 => if trimSpace (lines.getD (j + 1) []) == [] then ffelB lines j else j + 2

def findFirstEmptyLineBefore (lines : List (List Char)) (i : Nat) : Nat :=
  if i = 0 then 0 else ffelB lines (i - 1)

/-- `findStackFooterStart` scan (land.go lines 1242-1262) from index `i`
with `rem` indices left to try. -/
def fsfsAux (lines : List (List Char)) : Nat → Nat → Option Nat
  | 0, _ => none
  | rem + 1, i =>
    if trimSpace (lines.getD i []) == hyphens &&
        hasPrecedingEmptyLine lines i && hasStackInfoAfter lines i then
      some (findFirstEmptyLineBefore lines i)
    else fsfsAux lines rem (i + 1)

def findStackFooterStart (lines : List (List Char)) : Option Nat :=
  fsfsAux lines lines.length 0

/-- `removeStackFooter` (land.go lines 1228-1238). -/
def removeStackFooter (s : List Char) : List Char :=
  match findStackFooterStart (splitNl s) with
  | some k => joinNl ((splitNl s).take k)
  | none => s

/-- Length of the leading newline run. -/
def nlRun (s : List Char) : Nat :=
  (s.takeWhile (fun c => c = '\n')).length

/-- `multipleBlankLinesRegex.ReplaceAllString(body, "\n\n")` (land.go
line 1303): each maximal run of 3 or more newlines becomes exactly two. -/
def collapseF : Nat → List Char → List Char
  | 0, s => s
  | _, [] => []
  | fuel + 1, c :: rest =>
    if c = '\n' ∧ 2 ≤ nlRun rest then
      '\n' :: '\n' :: collapseF fuel (rest.dropWhile (fun x => x = '\n'))
    else c :: collapseF fuel rest

def collapseNl (s : List Char) : List Char :=
  collapseF s.length s

/-- Reversed-order parse of one `<br\s*\/?>` tag: the input is the body
reversed, so the tag reads `>`, optional `/`, whitespace, `rb<`. -/
def parseBrRev (r : List Char) : Option (List Char) :=
  match r with
  | c :: r1 =>
    if c = '>' then
      match (match r1 with
        | d :: rr => if d = '/' then rr else r1
        | [] => r1).dropWhile isRegexWS with
      | r3 =>
        if matchesAt ['r', 'b', '<'] r3 then some (r3.drop 3) else none
    else none
  | [] => none

/-- The `(\s*<br\s*\/?>)+` groups of `trailingBrRegex`, consumed in
reverse: each iteration parses one tag then the whitespace preceding it. -/
def sbg : Nat → List Char → Option (List Char)
  | 0, _ => none
  | fuel + 1, r =>
    match parseBrRev r with
    | none => none
    | some r2 =>
      match sbg fuel (r2.dropWhile isRegexWS) with
      | some r4 => some r4
      | none => some (r2.dropWhile isRegexWS)

/-- `trailingBrRegex.ReplaceAllString(body, "")` (land.go line 1306):
strip a trailing `(\s*<br\s*\/?>)+\s*` suffix if present. -/
def stripTrailingBr (s : List Char) : List Char :=
  match sbg s.length (s.reverse.dropWhile isRegexWS) with
  | some r2 => r2.reverse
  | none => s

/-- `cleanupFormatting` (land.go lines 1301-1309). -/
def cleanupFormatting (s : List Char) : List Char :=
  stripTrailingBr (collapseNl s)

def brOpen : List Char := ['<', 'b', 'r']

/-- Forward parse of one `<br\s*\/?>` tag. -/
def parseBrTag (s : List Char) : Option (List Char) :=
  if matchesAt brOpen s then
    match (s.drop 3).dropWhile isRegexWS with
    | c :: rest =>
      if c = '/' then
        match rest with
        | d :: rest2 => if d = '>' then some rest2 else none
        | [] => none
      else if c = '>' then some rest else none
    | [] => none
  else none

/-- The `(\n|\s|<br\s*\/?>)*$` tail of `emptyTemplateRegex`. -/
def brTail : Nat → List Char → Bool
  | _, [] => true
  | 0, _ => false
  | fuel + 1, c :: rest =>
    if isRegexWS c then brTail fuel rest
    else match parseBrTag (c :: rest) with
      | some r => brTail fuel r
      | none => false

def summaryPat : List Char := ['S', 'u', 'm', 'm', 'a', 'r', 'y']

/-- `emptyTemplateRegex` (`(?s)^#\s*Summary\s*(\n|\s|<br\s*\/?>)*$`). -/
def emptyTemplateMatch (s : List Char) : Bool :=
  match s with
  | c :: r1 =>
    if c = '#' then
      if matchesAt summaryPat (r1.dropWhile isRegexWS) then
        brTail ((r1.dropWhile isRegexWS).drop 7).length
          (((r1.dropWhile isRegexWS).drop 7).dropWhile isRegexWS)
      else false
    else false
  | [] => false

/-- Remainders after consuming one or more `p`-characters. -/
def plusSplits (p : Char → Bool) : List Char → List (List Char)
  | [] => []
  | c :: rest => if p c then rest :: plusSplits p rest else []

/-- Remainders after consuming zero or more `p`-characters. -/
def starSplits (p : Char → Bool) (s : List Char) : List (List Char) :=
  s :: plusSplits p s

/-- Remainders of the `#+\s*\w+\s*` alternative of `onlyHeadersRegex`. -/
def altOneRems (s : List Char) : List (List Char) :=
  (plusSplits (fun c => c = '#') s).flatMap (fun r1 =>
    (starSplits isRegexWS r1).flatMap (fun r2 =>
      (plusSplits isWordChar r2).flatMap (fun r3 =>
        starSplits isRegexWS r3)))

/-- Remainders of the `\w+\s*\n\s*[-=]+\s*` alternative of
`onlyHeadersRegex`. -/
def altTwoRems (s : List Char) : List (List Char) :=
  (plusSplits isWordChar s).flatMap (fun r1 =>
    (starSplits isRegexWS r1).flatMap (fun r2 =>
      match r2 with
      | c :: r3 =>
        if c = '\n' then
          (starSplits isRegexWS r3).flatMap (fun r4 =>
            (plusSplits (fun d => d = '-' ∨ d = '=') r4).flatMap (fun r5 =>
              starSplits isRegexWS r5))
        else []
      | [] => []))

/-- `onlyHeadersRegex` (`(?s)^((#+\s*\w+\s*)|(\w+\s*\n\s*[-=]+\s*)|\s)*$`):
backtracking matcher over the star of the three alternatives, each of
which consumes at least one character. -/
def okOH : Nat → List Char → Bool
  | _, [] => true
  | 0, _ => false
  | fuel + 1, s =>
    ((match s with
      | c :: rest => if isRegexWS c then [rest] else []
      | [] => []) ++ altOneRems s ++ altTwoRems s).any
      (fun r => decide (r.length < s.length) && okOH fuel r)

/-- `isEmptyBody` (land.go lines 1312-1326). -/
def isEmptyBody (s : List Char) : Bool :=
  emptyTemplateMatch (trimSpace s) || okOH (trimSpace s).length (trimSpace s)

/-- `cleanupPRBodyForMerge` (land.go lines 1191-1214). -/
def cleanupPRBodyForMerge (body : String) : String :=
  if body = "" then ""
  else
    if isEmptyBody (cleanupFormatting (removeStackFooter
        (removeComments (replaceCRLF body.data)))) then ""
    else String.mk (trimSpace (cleanupFormatting (removeStackFooter
      (removeComments (replaceCRLF body.data)))))

lemma dropWhile_head_false (p : Char → Bool) :
    ∀ (l : List Char) (c : Char) (rest : List Char),
      l.dropWhile p = c :: rest → p c = false := by
  intro l
  induction l with
  | nil => intro c rest h; cases h
  | cons a t ih =>
    intro c rest h
    by_cases hp : p a
    · rw [List.dropWhile_cons, if_pos hp] at h
      exact ih c rest h
    · rw [List.dropWhile_cons, if_neg hp] at h
      cases h
      simpa using hp

lemma trimSpace_idem (s : List Char) : trimSpace (trimSpace s) = trimSpace s := by
  have hB : ((s.dropWhile goIsSpace).reverse.dropWhile goIsSpace).dropWhile goIsSpace =
      (s.dropWhile goIsSpace).reverse.dropWhile goIsSpace := by
    rcases hw : (s.dropWhile goIsSpace).reverse.dropWhile goIsSpace with _ | ⟨c, t⟩
    · rfl
    · rw [List.dropWhile_cons, if_neg (by simp [dropWhile_head_false _ _ _ _ hw])]
  have hA : (((s.dropWhile goIsSpace).reverse.dropWhile goIsSpace).reverse).dropWhile
      goIsSpace = ((s.dropWhile goIsSpace).reverse.dropWhile goIsSpace).reverse := by
    rcases List.dropWhile_suffix (l := (s.dropWhile goIsSpace).reverse)
        (p := goIsSpace) with ⟨pre, hpre⟩
    have hu : s.dropWhile goIsSpace =
        ((s.dropWhile goIsSpace).reverse.dropWhile goIsSpace).reverse ++ pre.reverse := by
      have := congrArg List.reverse hpre
      simpa using this.symm
    rcases hwr : ((s.dropWhile goIsSpace).reverse.dropWhile goIsSpace).reverse
        with _ | ⟨c, t⟩
    · rfl
    · have hhead : s.dropWhile goIsSpace = c :: (t ++ pre.reverse) := by
        rw [hu, hwr]; rfl
      rw [List.dropWhile_cons, if_neg (by
        simp [dropWhile_head_false goIsSpace s c (t ++ pre.reverse) hhead])]
  show (((((s.dropWhile goIsSpace).reverse.dropWhile goIsSpace).reverse).dropWhile
      goIsSpace).reverse.dropWhile goIsSpace).reverse = _
  rw [hA, List.reverse_reverse, hB]
  rfl

lemma mem_trimSpace (c : Char) (l : List Char) (h : c ∈ trimSpace l) : c ∈ l := by
  unfold trimSpace at h
  rw [List.mem_reverse] at h
  have h2 := (List.dropWhile_sublist goIsSpace).subset h
  rw [List.mem_reverse] at h2
  exact (List.dropWhile_sublist goIsSpace).subset h2

lemma splitNl_ne_nil (s : List Char) : splitNl s ≠ [] := by
  cases s with
  | nil => simp [splitNl]
  | cons c rest =>
    by_cases h : c = '\n'
    · simp [splitNl, h]
    · rcases hs : splitNl rest with _ | ⟨l, ls⟩ <;> simp [splitNl, h, hs]

lemma mem_splitNl (c : Char) (s : List Char) :
    ∀ l ∈ splitNl s, c ∈ l → c ∈ s := by
  induction s with
  | nil =>
    intro l hl hc
    simp [splitNl] at hl
    subst hl
    cases hc
  | cons a rest ih =>
    intro l hl hc
    by_cases h : a = '\n'
    · simp [splitNl, h] at hl
      rcases hl with rfl | hl
      · cases hc
      · exact List.mem_cons_of_mem a (ih l hl hc)
    · rcases hs : splitNl rest with _ | ⟨l0, ls⟩
      · exact absurd hs (splitNl_ne_nil rest)
      · simp [splitNl, h, hs] at hl
        rcases hl with rfl | hl
        · rcases List.mem_cons.1 hc with rfl | hc0
          · exact List.mem_cons_self _ _
          · exact List.mem_cons_of_mem a
              (ih l0 (by rw [hs]; exact List.mem_cons_self _ _) hc0)
        · exact List.mem_cons_of_mem a
            (ih l (by rw [hs]; exact List.mem_cons_of_mem _ hl) hc)

lemma replaceCRLF_id (s : List Char) (h : '\r' ∉ s) : replaceCRLF s = s := by
  induction s with
  | nil => rfl
  | cons c rest ih =>
    have hc : ¬ c = '\r' := fun hh => h (hh ▸ List.mem_cons_self c rest)
    have hr : '\r' ∉ rest := fun hm => h (List.mem_cons_of_mem c hm)
    cases rest with
    | nil => rfl
    | cons d rest2 =>
      show replaceCRLF (c :: d :: rest2) = c :: d :: rest2
      rw [replaceCRLF, if_neg (fun hh => hc hh.1), ih hr]

lemma rhcF_id (fuel : Nat) : ∀ s, '<' ∉ s → rhcF fuel s = s := by
  induction fuel with
  | zero => intro s _; simp [rhcF]
  | succ n ih =>
    intro s h
    cases s with
    | nil => simp [rhcF]
    | cons c rest =>
      have hc : ¬ ('<' : Char) = c :=
        fun hh => h (hh ▸ List.mem_cons_self c rest)
      rw [rhcF, if_neg (by simp [htmlOpen, matchesAt, hc]),
        ih rest (fun hm => h (List.mem_cons_of_mem c hm))]

lemma removeHtmlComments_id (s : List Char) (h : '<' ∉ s) :
    removeHtmlComments s = s :=
  rhcF_id s.length s h

lemma mdTryLine_none (s : List Char) (h : '[' ∉ s) : mdTryLine s = none := by
  cases s with
  | nil => rfl
  | cons c r =>
    have hc : ¬ c = '[' := fun hh => h (hh ▸ List.mem_cons_self c r)
    simp [mdTryLine, hc]

lemma mdRemoveF_id (fuel : Nat) : ∀ s, '[' ∉ s → mdRemoveF fuel s = s := by
  induction fuel with
  | zero => intro s _; simp [mdRemoveF]
  | succ n ih =>
    intro s h
    cases s with
    | nil => simp [mdRemoveF]
    | cons c rest =>
      rcases hd : (c :: rest).dropWhile (fun x => ¬ x = '\n') with _ | ⟨x, rest2⟩
      · simp only [mdRemoveF, mdTryLine_none _ h, hd]
      · have hx : x = '\n' := by
          have := dropWhile_head_false _ _ _ _ hd
          simpa using this
        subst hx
        have hm2 : '[' ∉ rest2 := by
          intro hm
          exact h ((List.dropWhile_sublist
            (fun x : Char => decide (¬ x = '\n'))).subset
            (by rw [hd]; exact List.mem_cons_of_mem '\n' hm))
        simp only [mdRemoveF, mdTryLine_none _ h, hd]
        rw [ih rest2 hm2,
          show ('\n' : Char) :: rest2 =
            (c :: rest).dropWhile (fun x => ¬ x = '\n') from hd.symm,
          List.takeWhile_append_dropWhile]

lemma mdRemove_id (s : List Char) (h : '[' ∉ s) : mdRemove s = s :=
  mdRemoveF_id s.length s h

lemma removeComments_id (s : List Char) (h1 : '<' ∉ s) (h2 : '[' ∉ s) :
    removeComments s = s := by
  unfold removeComments
  rw [removeHtmlComments_id s h1, mdRemove_id s h2]

lemma fsfsAux_none (lines : List (List Char))
    (hcond : ∀ i, (trimSpace (lines.getD i []) == hyphens) = false) :
    ∀ rem i, fsfsAux lines rem i = none := by
  intro rem
  induction rem with
  | zero => intro i; rfl
  | succ n ih =>
    intro i
    rw [fsfsAux, hcond i]
    simp only [Bool.false_and, if_false]
    exact ih (i + 1)

lemma removeStackFooter_id (s : List Char) (h : '-' ∉ s) :
    removeStackFooter s = s := by
  have hcond : ∀ i, (trimSpace ((splitNl s).getD i []) == hyphens) = false := by
    intro i
    rcases hg : (splitNl s).get? i with _ | l
    · rw [List.getD_eq_getD_get?, hg]
      simp [trimSpace, hyphens]
    · have hl : l ∈ splitNl s := List.get?_mem hg
      rw [List.getD_eq_getD_get?, hg]
      refine beq_eq_false_iff_ne.2 (fun heq => ?_)
      have hm : '-' ∈ trimSpace l := by
        rw [show trimSpace (Option.getD (some l) []) = trimSpace l from rfl] at heq
        rw [heq]
        simp [hyphens]
      exact h (mem_splitNl '-' s l hl (mem_trimSpace _ _ hm))
  unfold removeStackFooter findStackFooterStart
  rw [fsfsAux_none _ hcond _ 0]

/-- Three consecutive newlines occur somewhere in the list. -/
def hasTripleNl : List Char → Bool
  | [] => false
  | a :: rest => matchesAt ['\n', '\n', '\n'] (a :: rest) || hasTripleNl rest

lemma hasTriple_tail (a : Char) (t : List Char)
    (h : hasTripleNl (a :: t) = false) : hasTripleNl t = false := by
  rw [hasTripleNl, Bool.or_eq_false_iff] at h
  exact h.2

lemma matchesAt_triple (s : List Char) :
    matchesAt ['\n', '\n', '\n'] s = true ↔ ∃ r, s = '\n' :: '\n' :: '\n' :: r := by
  constructor
  · intro h
    rcases s with _ | ⟨x, _ | ⟨y, _ | ⟨z, w⟩⟩⟩
    · cases h
    · simp [matchesAt] at h
    · simp [matchesAt] at h
    · simp only [matchesAt, Bool.and_true, Bool.and_eq_true, beq_iff_eq, and_true] at h
      refine ⟨w, ?_⟩
      rw [← h.1, ← h.2.1, ← h.2.2]
  · rintro ⟨r, rfl⟩
    simp [matchesAt]

lemma hasTripleNl_iff (s : List Char) :
    hasTripleNl s = true ↔ ['\n', '\n', '\n'] <:+: s := by
  induction s with
  | nil =>
    rw [show hasTripleNl [] = false from rfl]
    constructor
    · intro h; cases h
    · intro h
      have := h.length_le
      simp at this
  | cons a t ih =>
    rw [hasTripleNl, Bool.or_eq_true, List.infix_cons_iff, matchesAt_triple, ih]
    constructor
    · rintro (⟨r, hr⟩ | hi)
      · exact Or.inl ⟨r, by rw [hr]; rfl⟩
      · exact Or.inr hi
    · rintro (⟨r, hr⟩ | hi)
      · exact Or.inl ⟨r, by rw [← hr]; rfl⟩
      · exact Or.inr hi

lemma noTriple_within {t s : List Char} (hts : t <:+: s)
    (hs : hasTripleNl s = false) : hasTripleNl t = false := by
  cases ht : hasTripleNl t with
  | false => rfl
  | true =>
    have := (hasTripleNl_iff s).2 (((hasTripleNl_iff t).1 ht).trans hts)
    rw [this] at hs
    cases hs

lemma trimSpace_within (s : List Char) : trimSpace s <:+: s := by
  have h1 : (s.dropWhile goIsSpace) <:+ s := List.dropWhile_suffix _
  rcases List.dropWhile_suffix (l := (s.dropWhile goIsSpace).reverse) (p := goIsSpace)
    with ⟨pre, hpre⟩
  have h3 : s.dropWhile goIsSpace =
      ((s.dropWhile goIsSpace).reverse.dropWhile goIsSpace).reverse ++ pre.reverse := by
    have := congrArg List.reverse hpre
    simpa using this.symm
  have hprefix : ((s.dropWhile goIsSpace).reverse.dropWhile goIsSpace).reverse <+:
      s.dropWhile goIsSpace := ⟨pre.reverse, h3.symm⟩
  exact hprefix.isInfix.trans h1.isInfix

lemma noTriple_trimSpace (s : List Char) (hs : hasTripleNl s = false) :
    hasTripleNl (trimSpace s) = false :=
  noTriple_within (trimSpace_within s) hs

lemma collapseF_nil (fuel : Nat) : collapseF fuel [] = [] := by
  cases fuel <;> rfl

lemma collapseF_head (fuel : Nat) (c : Char) (rest : List Char) :
    ∃ t, collapseF fuel (c :: rest) = c :: t := by
  cases fuel with
  | zero => exact ⟨rest, rfl⟩
  | succ n =>
    by_cases hc : c = '\n' ∧ 2 ≤ nlRun rest
    · refine ⟨'\n' :: collapseF n (rest.dropWhile (fun x => x = '\n')), ?_⟩
      rw [collapseF, if_pos hc, hc.1]
    · exact ⟨collapseF n rest, by rw [collapseF, if_neg hc]⟩

lemma collapseF_headq (fuel : Nat) (s : List Char) :
    (collapseF fuel s).head? = s.head? := by
  cases s with
  | nil => rw [collapseF_nil]
  | cons c rest =>
    rcases collapseF_head fuel c rest with ⟨t, ht⟩
    rw [ht]
    rfl

lemma nlRun_ge2 (rest : List Char) (h : 2 ≤ nlRun rest) :
    ∃ r2, rest = '\n' :: '\n' :: r2 := by
  rcases rest with _ | ⟨a, _ | ⟨b, r2⟩⟩
  · simp [nlRun] at h
  · by_cases ha : a = '\n' <;> simp [nlRun, List.takeWhile, ha] at h
  · by_cases ha : a = '\n'
    · by_cases hb : b = '\n'
      · exact ⟨r2, by rw [ha, hb]⟩
      · exfalso
        simp [nlRun, List.takeWhile_cons, ha, hb] at h
    · exfalso
      simp [nlRun, List.takeWhile_cons, ha] at h

lemma nlRun_zero_headq (l : List Char) (h : nlRun l = 0) : l.head? ≠ some '\n' := by
  rcases l with _ | ⟨a, t⟩
  · simp
  · by_cases ha : a = '\n'
    · simp [nlRun, List.takeWhile_cons, ha] at h
    · simpa using ha

lemma matchesAt_single (c : Char) (l : List Char) (h : l.head? ≠ some c) :
    matchesAt [c] l = false := by
  rcases l with _ | ⟨a, t⟩
  · rfl
  · have : ¬ c = a := fun hh => h (by rw [hh]; rfl)
    simp [matchesAt, this]

lemma collapseF_id (fuel : Nat) : ∀ s, hasTripleNl s = false → collapseF fuel s = s := by
  induction fuel with
  | zero => intro s _; simp [collapseF]
  | succ n ih =>
    intro s h
    cases s with
    | nil => simp [collapseF]
    | cons a rest =>
      have hcond : ¬ (a = '\n' ∧ 2 ≤ nlRun rest) := by
        rintro ⟨rfl, h2⟩
        rcases nlRun_ge2 rest h2 with ⟨r2, rfl⟩
        simp [hasTripleNl, matchesAt] at h
      rw [collapseF, if_neg hcond, ih rest (hasTriple_tail a rest h)]

lemma collapseF_mem (fuel : Nat) :
    ∀ s c, c ∈ collapseF fuel s → c ∈ s ∨ c = '\n' := by
  induction fuel with
  | zero =>
    intro s c h
    simp [collapseF] at h
    exact Or.inl h
  | succ n ih =>
    intro s c h
    cases s with
    | nil => simp [collapseF] at h
    | cons a rest =>
      by_cases hc : a = '\n' ∧ 2 ≤ nlRun rest
      · rw [collapseF, if_pos hc] at h
        rcases List.mem_cons.1 h with rfl | h2
        · exact Or.inr rfl
        rcases List.mem_cons.1 h2 with rfl | h3
        · exact Or.inr rfl
        rcases ih _ c h3 with hm | he
        · exact Or.inl (List.mem_cons_of_mem a ((List.dropWhile_sublist _).subset hm))
        · exact Or.inr he
      · rw [collapseF, if_neg hc] at h
        rcases List.mem_cons.1 h with rfl | h2
        · exact Or.inl (List.mem_cons_self _ _)
        rcases ih _ c h2 with hm | he
        · exact Or.inl (List.mem_cons_of_mem a hm)
        · exact Or.inr he

lemma collapseF_noTriple (fuel : Nat) :
    ∀ s, s.length ≤ fuel → hasTripleNl (collapseF fuel s) = false := by
  induction fuel with
  | zero =>
    intro s hl
    have hs : s = [] := List.length_eq_zero.1 (Nat.le_zero.1 hl)
    subst hs
    rw [collapseF_nil]
    rfl
  | succ n ih =>
    intro s hl
    cases s with
    | nil => rw [collapseF_nil]; rfl
    | cons a rest =>
      have hlrest : rest.length ≤ n := by
        simp only [List.length_cons] at hl
        omega
      by_cases hc : a = '\n' ∧ 2 ≤ nlRun rest
      · rw [collapseF, if_pos hc]
        have hlen : (rest.dropWhile (fun x => x = '\n')).length ≤ n := by
          have hle : (rest.dropWhile (fun x => x = '\n')).length ≤ rest.length :=
            (List.dropWhile_sublist _).length_le
          omega
        have hw := ih _ hlen
        rcases hr : rest.dropWhile (fun x => x = '\n') with _ | ⟨h0, t0⟩
        · rw [collapseF_nil]
          rfl
        · have hh0 : ¬ h0 = '\n' := by
            simpa using dropWhile_head_false _ rest h0 t0 hr
          rw [hr] at hw
          rcases collapseF_head n h0 t0 with ⟨t1, hw1⟩
          rw [hw1]
          rw [hw1] at hw
          have hh0s : ¬ ('\n' : Char) = h0 := fun hh => hh0 hh.symm
          simp [hasTripleNl, matchesAt, hh0, hh0s]
          exact hasTriple_tail h0 t1 hw
      · rw [collapseF, if_neg hc]
        have hw := ih rest hlrest
        rw [hasTripleNl, Bool.or_eq_false_iff]
        refine ⟨?_, hw⟩
        by_cases ha : a = '\n'
        · subst ha
          rcases rest with _ | ⟨b, rest2⟩
          · rw [collapseF_nil]; rfl
          · by_cases hb : b = '\n'
            · subst hb
              have hr2 : nlRun rest2 = 0 := by
                by_contra hn0
                refine hc ⟨rfl, ?_⟩
                have h1 : nlRun ('\n' :: rest2) = nlRun rest2 + 1 := by
                  simp [nlRun, List.takeWhile_cons]
                omega
              have hhead : (collapseF n rest2).head? ≠ some '\n' := by
                rw [collapseF_headq]
                exact nlRun_zero_headq rest2 hr2
              cases n with
              | zero =>
                show matchesAt ['\n', '\n', '\n'] ('\n' :: '\n' :: rest2) = false
                show (('\n' : Char) == '\n' &&
                  (('\n' : Char) == '\n' && matchesAt ['\n'] rest2)) = false
                rw [matchesAt_single '\n' rest2 (by
                  simpa using nlRun_zero_headq rest2 hr2)]
                simp
              | succ m =>
                have hcond2 : ¬ (('\n' : Char) = '\n' ∧ 2 ≤ nlRun rest2) := by
                  rintro ⟨_, hh⟩
                  omega
                rw [collapseF, if_neg hcond2]
                show (('\n' : Char) == '\n' &&
                  (('\n' : Char) == '\n' && matchesAt ['\n'] (collapseF m rest2))) = false
                rw [matchesAt_single '\n' (collapseF m rest2) (by
                  rw [collapseF_headq]
                  exact nlRun_zero_headq rest2 hr2)]
                simp
            · rcases collapseF_head n b rest2 with ⟨t1, ht1⟩
              rw [ht1]
              have hbs : ¬ ('\n' : Char) = b := fun hh => hb hh.symm
              simp [matchesAt, hbs]
        · have has : ¬ ('\n' : Char) = a := fun hh => ha hh.symm
          rcases rest with _ | ⟨b, rest2⟩
          · rw [collapseF_nil]
            simp [matchesAt, has]
          · rcases collapseF_head n b rest2 with ⟨t1, ht1⟩
            rw [ht1]
            simp [matchesAt, has]

lemma matchesAt_rb (l : List Char) (h : matchesAt ['r', 'b', '<'] l = true) :
    '<' ∈ l := by
  rcases l with _ | ⟨x, _ | ⟨y, _ | ⟨z, w⟩⟩⟩ <;> simp [matchesAt, beq_iff_eq] at h
  rcases h with ⟨_, _, hz⟩
  rw [← hz]
  simp

lemma parseBrRev_mem (r r' : List Char) (h : parseBrRev r = some r') : '<' ∈ r := by
  rcases r with _ | ⟨c, r1⟩
  · cases h
  · by_cases hc : c = '>'
    · rcases r1 with _ | ⟨d, rr⟩
      · simp only [parseBrRev, if_pos hc, List.dropWhile_nil] at h
        simp [matchesAt] at h
      · by_cases hd : d = '/'
        · simp only [parseBrRev, if_pos hc, if_pos hd] at h
          by_cases hm : matchesAt ['r', 'b', '<'] (rr.dropWhile isRegexWS) = true
          · have h4 : '<' ∈ rr := (List.dropWhile_sublist _).subset (matchesAt_rb _ hm)
            exact List.mem_cons_of_mem c (List.mem_cons_of_mem d h4)
          · rw [if_neg hm] at h
            cases h
        · simp only [parseBrRev, if_pos hc, if_neg hd] at h
          by_cases hm : matchesAt ['r', 'b', '<'] ((d :: rr).dropWhile isRegexWS) = true
          · have h4 : '<' ∈ d :: rr :=
              (List.dropWhile_sublist _).subset (matchesAt_rb _ hm)
            exact List.mem_cons_of_mem c h4
          · rw [if_neg hm] at h
            cases h
    · simp [parseBrRev, hc] at h

lemma sbg_none (fuel : Nat) (r : List Char) (h : '<' ∉ r) : sbg fuel r = none := by
  cases fuel with
  | zero => rfl
  | succ n =>
    rcases hp : parseBrRev r with _ | r2
    · simp [sbg, hp]
    · exact absurd (parseBrRev_mem r r2 hp) h

lemma stripTrailingBr_id (s : List Char) (h : '<' ∉ s) : stripTrailingBr s = s := by
  have h2 : '<' ∉ s.reverse.dropWhile isRegexWS := fun hm =>
    h (List.mem_reverse.1 ((List.dropWhile_sublist _).subset hm))
  simp [stripTrailingBr, sbg_none s.length _ h2]

lemma collapseNl_id (s : List Char) (h : hasTripleNl s = false) : collapseNl s = s :=
  collapseF_id s.length s h

lemma collapseNl_noTriple (s : List Char) : hasTripleNl (collapseNl s) = false :=
  collapseF_noTriple s.length s (le_refl _)

lemma collapseNl_mem (s : List Char) (c : Char) (h : c ∈ collapseNl s) :
    c ∈ s ∨ c = '\n' :=
  collapseF_mem s.length s c h

lemma isEmptyBody_trim (s : List Char) : isEmptyBody (trimSpace s) = isEmptyBody s := by
  unfold isEmptyBody
  rw [trimSpace_idem]

lemma cleanup_eval (body : String) (hne : ¬ body = "")
    (h1 : '<' ∉ body.data) (h2 : '[' ∉ body.data)
    (h3 : '\r' ∉ body.data) (h4 : '-' ∉ body.data) :
    cleanupPRBodyForMerge body =
      if isEmptyBody (collapseNl body.data) then ""
      else String.mk (trimSpace (collapseNl body.data)) := by
  have hlt : '<' ∉ collapseNl body.data := by
    intro hm
    rcases collapseNl_mem _ _ hm with hm2 | he
    · exact h1 hm2
    · exact absurd he (by decide)
  unfold cleanupPRBodyForMerge
  rw [if_neg hne, replaceCRLF_id _ h3, removeComments_id _ h1 h2,
    removeStackFooter_id _ h4]
  unfold cleanupFormatting
  rw [stripTrailingBr_id _ hlt]

/-- C8 counterexample: `cleanupPRBodyForMerge` is not idempotent — on
`<!<!-- a -->-- b -->` the first pass removes the inner HTML comment and
thereby exposes a new comment `<!-- b -->`, which only the second pass
removes, so the two passes disagree. -/
theorem C8_counterexample :
    cleanupPRBodyForMerge "<!<!-- a -->-- b -->" = "<!-- b -->" ∧
    cleanupPRBodyForMerge (cleanupPRBodyForMerge "<!<!-- a -->-- b -->") = "" ∧
    cleanupPRBodyForMerge (cleanupPRBodyForMerge "<!<!-- a -->-- b -->") ≠
      cleanupPRBodyForMerge "<!<!-- a -->-- b -->" := by
  refine ⟨by decide, by decide, by decide⟩

/-- C8 amended: `cleanupPRBodyForMerge` is idempotent on bodies containing
none of the characters `<`, `[`, `\r`, `-` (no HTML comments or `<br>`
tags, no markdown link-reference comments, no CRLF line endings and no
`---` stack-footer separator): on such bodies a second pass returns the
first pass's output unchanged. -/
theorem C8_amended_cleanup_idempotent (body : String)
    (h1 : '<' ∉ body.data) (h2 : '[' ∉ body.data)
    (h3 : '\r' ∉ body.data) (h4 : '-' ∉ body.data) :
    cleanupPRBodyForMerge (cleanupPRBodyForMerge body) = cleanupPRBodyForMerge body := by
  by_cases hb : body = ""
  · subst hb
    rfl
  · have heval := cleanup_eval body hb h1 h2 h3 h4
    set z := collapseNl body.data with hz
    have hzny : hasTripleNl z = false := collapseNl_noTriple body.data
    by_cases he : isEmptyBody z = true
    · rw [heval, if_pos he]
      rfl
    · rw [heval, if_neg he]
      by_cases hy : trimSpace z = []
      · rw [hy]
        rfl
      · have hmem : ∀ c : Char, c ∈ trimSpace z → c = '\n' ∨ c ∈ body.data := by
          intro c hc
          have h5 : c ∈ z := mem_trimSpace c z hc
          rw [hz] at h5
          rcases collapseNl_mem _ _ h5 with hm | hm
          · exact Or.inr hm
          · exact Or.inl hm
        have h1' : '<' ∉ trimSpace z := fun hm => by
          rcases hmem _ hm with he2 | hm2
          · exact absurd he2 (by decide)
          · exact h1 hm2
        have h2' : '[' ∉ trimSpace z := fun hm => by
          rcases hmem _ hm with he2 | hm2
          · exact absurd he2 (by decide)
          · exact h2 hm2
        have h3' : '\r' ∉ trimSpace z := fun hm => by
          rcases hmem _ hm with he2 | hm2
          · exact absurd he2 (by decide)
          · exact h3 hm2
        have h4' : '-' ∉ trimSpace z := fun hm => by
          rcases hmem _ hm with he2 | hm2
          · exact absurd he2 (by decide)
          · exact h4 hm2
        have hne' : ¬ String.mk (trimSpace z) = "" := fun hh => hy (by
          have := congrArg String.data hh
          simpa using this)
        have heval2 := cleanup_eval (String.mk (trimSpace z)) hne' h1' h2' h3' h4'
        rw [heval2,
          show (String.mk (trimSpace z)).data = trimSpace z from rfl,
          show collapseNl (trimSpace z) = trimSpace z from
            collapseNl_id _ (noTriple_trimSpace z hzny),
          isEmptyBody_trim, if_neg he, trimSpace_idem]

/-- Witness for C8 amended at a body with an excessive blank-line run:
the restricted character set holds and a second cleanup pass is a
no-op. -/
theorem C8_amended_cleanup_idempotent_witness :
    ('<' ∉ "Hello\n\n\n\nworld".data ∧ '[' ∉ "Hello\n\n\n\nworld".data ∧
      '\r' ∉ "Hello\n\n\n\nworld".data ∧ '-' ∉ "Hello\n\n\n\nworld".data) ∧
    cleanupPRBodyForMerge (cleanupPRBodyForMerge "Hello\n\n\n\nworld") =
      cleanupPRBodyForMerge "Hello\n\n\n\nworld" :=
  ⟨⟨by decide, by decide, by decide, by decide⟩,
    C8_amended_cleanup_idempotent "Hello\n\n\n\nworld" (by decide) (by decide)
      (by decide) (by decide)⟩
